import Mathlib

/-!
Verification development for the IMDB movie-rating preprocessing pipeline
(`src/preprocessing.py`).

The pandas `DataFrame` is modelled column-orientedly: a frame is a list of
columns, each column carrying its name, its pandas dtype (collapsed to the
two classes the code distinguishes via `select_dtypes`: `int64`/`float64`
versus `object`) and its cells.  A cell is `Option Val`; `none` models a
missing value (`None` / `NaN`).  Machine floats are modelled by `ℚ`; the two
transcendental ingredients of the pipeline — `np.log1p` and the random-forest
learner — are passed as explicit parameters, exactly as the spec treats the
learner ("a pluggable capability").  Comparisons of the form
`|v - mean| > 3 * std` are embedded as `(v - mean)^2 > 9 * var`, which is
equivalent over the reals and avoids the irrational square root.

Python exceptions are modelled with `Except PyErr`; a function that the
source lets raise is embedded with an `Except` result type.
-/

-- Batteries marks the ℚ field operations `@[irreducible]`; re-marking them
-- semireducible lets concrete pipeline runs evaluate inside `decide`
-- (kernel checking is unaffected by reducibility attributes).
attribute [local semireducible] Rat.add Rat.mul Rat.inv Rat.sub

set_option maxRecDepth 200000

deriving instance DecidableEq for Except

namespace Preproc

/-- A literal value inside a parental-guide dictionary entry. -/
inductive GLit where
  | gstr (s : String)
  | gnum (q : ℚ)
deriving DecidableEq, Repr

/-- One category of a parental-guide dictionary, as consumed by
`process_parent_guide` (`details.get('Severity')`,
`details.get('Number of vote:')`, `details.get('Total votes:'/'Total votes')`;
the two spellings of the total-votes key are collapsed into one field). -/
structure GuideEntry where
  category : String
  severity : Option GLit
  numberOfVotes : Option GLit
  totalVotes : Option GLit
deriving DecidableEq, Repr

/-- A cell value of a frame.  `guide` holds the parental-guide dictionary
directly in structured form: `ast.literal_eval` of the crawled dict literal
is modelled as the identity on this structured payload. -/
inductive Val where
  | num (q : ℚ)
  | str (s : String)
  | guide (entries : List GuideEntry)
deriving DecidableEq, Repr

/-- A cell: `none` is `None`/`NaN`. -/
abbrev Cell := Option Val

/-- The dtype classes that the code distinguishes
(`select_dtypes(include=['int64','float64'])` vs `include=['object']`). -/
inductive Dtype where
  | numeric
  | object
deriving DecidableEq, Repr

/-- A named column of a frame. -/
structure Col where
  name : String
  dtype : Dtype
  cells : List Cell
deriving DecidableEq, Repr

/-- A pandas DataFrame: ordered columns (duplicate labels are possible in
pandas and do arise in `encoding`, hence a list rather than a map). -/
abbrev DF := List Col

/-- The Python exceptions the embedded code can raise. -/
inductive PyErr where
  | keyError
  | valueError
  | typeError
  | unboundLocal
deriving DecidableEq, Repr

/-- Number of rows of a frame (length of its first column; well-formed
frames have all columns of equal length). -/
def nRows (df : DF) : ℕ :=
  match df with
  | [] => 0
  | c :: _ => c.cells.length

/-- A frame is well formed when every column has the same number of rows. -/
def WF (df : DF) : Prop := ∀ c ∈ df, c.cells.length = nRows df

instance (df : DF) : Decidable (WF df) := by
  unfold WF; infer_instance

/-- `df[name]`: first column with the given label, if any. -/
def findCol (df : DF) (name : String) : Option Col :=
  df.find? (fun c => c.name = name)

/-- Cells of `df[name]` (empty when the label is absent; the witnesses only
use it on present labels, where Python would otherwise raise `KeyError`). -/
def colCells (df : DF) (name : String) : List Cell :=
  ((findCol df name).map Col.cells).getD []

/-- `df[name] = col`: replace the first column with this label, or append a
new column at the end, as pandas column assignment does. -/
def setCol (df : DF) (col : Col) : DF :=
  if (df.find? (fun c => c.name = col.name)).isSome then
    df.map (fun c => if c.name = col.name then col else c)
  else
    df ++ [col]

/-- `df.drop(columns=names)` (presence of the labels is checked by the
callers that embed a raising `drop`). -/
def dropCols (df : DF) (names : List String) : DF :=
  df.filter (fun c => c.name ∉ names)

/-- Restrict every column of the frame to the rows selected by the mask. -/
def maskCells (mask : List Bool) (cells : List Cell) : List Cell :=
  ((mask.zip cells).filter (fun p => p.1)).map (fun p => p.2)

/-- `df[mask]`: keep the rows where the boolean mask is true. -/
def filterRows (df : DF) (mask : List Bool) : DF :=
  df.map (fun c => { c with cells := maskCells mask c.cells })

/-- Row `i` of the frame, as one cell per column. -/
def rowAt (df : DF) (i : ℕ) : List Cell :=
  df.map (fun c => c.cells.getD i none)

/-- All rows of the frame, in order. -/
def rowsOf (df : DF) : List (List Cell) :=
  (List.range (nRows df)).map (rowAt df)

end Preproc

namespace Preproc

/-! ## FieldNormalizer -/

/-- `str(x)` as applied by the code to a cell (`astype(str)` /
`str(duration)`).  A missing value prints as `"None"` on an object column and
as `"nan"` on a float column; both spellings parse identically everywhere the
code uses the result.  The decimal rendering of a float is abstracted by a
rational rendering; the claims only exercise string cells here. -/
def pyStr (dt : Dtype) (c : Cell) : String :=
  match c with
  | some (Val.str s) => s
  | some (Val.num q) => toString q.num ++ (if q.den = 1 then "" else "/" ++ toString q.den)
  | some (Val.guide _) => "{...}"
  | none => match dt with
    | Dtype.object => "None"
    | Dtype.numeric => "nan"

/-- The core of `replace_flags_with_nan`: every cell exactly equal to one of
the flag strings becomes missing (`df.replace(flag, None, inplace=True)`,
folded over the flag list). -/
def replaceFlagsPure (flags : List String) (df : DF) : DF :=
  flags.foldl
    (fun d flag =>
      d.map (fun c =>
        { c with cells := c.cells.map (fun cell =>
            if cell = some (Val.str flag) then none else cell) }))
    df

/-- Maximal leading run of decimal digits of a character list, with the rest. -/
def digitRun : List Char → List Char × List Char
  | [] => ([], [])
  | c :: cs =>
    if c.isDigit then
      let (ds, rest) := digitRun cs
      (c :: ds, rest)
    else
      ([], c :: cs)

/-- Value of a list of decimal digits. -/
def digitsVal (ds : List Char) : ℕ :=
  ds.foldl (fun acc c => 10 * acc + (c.toNat - '0'.toNat)) 0

/-- Parse the decimal string that survives `re.sub(r'[^\d.]', '', x)`, with
`pd.to_numeric(..., errors='coerce')` semantics: empty string, a lone dot or
more than one dot coerce to `NaN`. -/
def parseCleaned (cs : List Char) : Option ℚ :=
  let parts := cs.splitOn '.'
  match parts with
  | [intPart] =>
    if intPart = [] then none else some (digitsVal intPart)
  | [intPart, fracPart] =>
    if intPart = [] ∧ fracPart = [] then none
    else some ((digitsVal intPart : ℚ) + (digitsVal fracPart : ℚ) / ((10 : ℚ) ^ fracPart.length))
  | _ => none

/-- One cell of `clean_numeric_columns`:
`df[col].astype(str)` then `re.sub(r'[^\d.]', '', x)` then
`pd.to_numeric(..., errors='coerce')`.  A missing cell stringifies to
`"None"`/`"nan"`, loses all its characters and coerces back to `NaN`; a
numeric cell stringifies to its decimal rendering and reparses to its
absolute value (a leading minus sign is stripped by the regex). -/
def cleanCell (dt : Dtype) (c : Cell) : Cell :=
  match c with
  | none => none
  | some (Val.num q) => some (Val.num |q|)
  | some v =>
    match parseCleaned ((pyStr dt (some v)).data.filter (fun ch => ch.isDigit ∨ ch = '.')) with
    | some q => some (Val.num q)
    | none => none

/-- The core of `clean_numeric_columns` for an explicit column list: each
listed column present in the frame is cleaned cell-wise and its dtype becomes
numeric (`pd.to_numeric`); a listed column that is absent raises `KeyError`,
which the function's own `except` swallows, so absence is a no-op. -/
def cleanNumericPure (cols : List String) (df : DF) : DF :=
  cols.foldl
    (fun d col =>
      d.map (fun c =>
        if c.name = col then
          { c with dtype := Dtype.numeric, cells := c.cells.map (cleanCell c.dtype) }
        else c))
    df

/-- `(?:(\d+)h)?` / `(?:(\d+)m)?` token: if the input starts with a nonempty
digit run immediately followed by the marker character, consume it and return
its value, else consume nothing and return 0 (the group is optional; a
shorter digit run can never make the marker match, so the greedy run is the
only candidate). -/
def numToken (marker : Char) (cs : List Char) : ℕ × List Char :=
  let (ds, rest) := digitRun cs
  match ds, rest with
  | (_ :: _), (c :: rest') =>
    if c = marker then (digitsVal ds, rest') else (0, cs)
  | _, _ => (0, cs)

/-- `re.match(r'(?:(\d+)h)? ?(?:(\d+)m)?', s)`: every component is optional,
so the match always succeeds; absent components contribute 0. -/
def parseDurationStr (s : String) : ℕ :=
  let (h, rest) := numToken 'h' s.data
  let rest1 := match rest with
    | ' ' :: r => r
    | r => r
  let (m, _) := numToken 'm' rest1
  h * 60 + m

/-- `parse_duration`: the argument is stringified (the `duration is not str`
identity test is true for every value, strings included, so `str()` is always
applied), then matched.  The regex has only optional parts, so the match
object is always truthy and the function always returns `hours*60+minutes`;
the trailing `return None` is unreachable for any input. -/
def parse_duration (c : Cell) : Option ℚ :=
  let s := pyStr Dtype.object c
  some (parseDurationStr s : ℚ)

/-- Candidate split points of `re.match(r'^(.*\d{4}) \((.*)\)$', s)` over the
character list: `i` is the length of group 1, which must end in four digits
and be followed by `" ("`; the string must end in `')'` with group 2 in
between.  `.` does not match a newline. -/
def dpOk (cs : List Char) (i : ℕ) : Bool :=
  let n := cs.length
  decide (4 ≤ i) && decide (i + 3 ≤ n) &&
  ((List.range 4).all (fun k => (cs.getD (i - 4 + k) ' ').isDigit)) &&
  (cs.getD i '?' == ' ') && (cs.getD (i + 1) '?' == '(') &&
  (cs.getD (n - 1) '?' == ')') &&
  ((cs.take (i - 4)).all (fun ch => ch != '\n')) &&
  (((cs.drop (i + 2)).take (n - 1 - (i + 2))).all (fun ch => ch != '\n'))

/-- The greedy match of `^(.*\d{4}) \((.*)\)$`: group 1 takes the largest
valid split point; returns (group 1, group 2). -/
def matchDatePlace (s : String) : Option (String × String) :=
  let cs := s.data
  let n := cs.length
  match ((List.range (n + 1)).filter (fun i => dpOk cs i)).max? with
  | some i =>
    some (String.mk (cs.take i), String.mk ((cs.drop (i + 2)).take (n - 1 - (i + 2))))
  | none => none

/-- `s.strip()`: drop leading and trailing whitespace. -/
def pyStrip (s : String) : String :=
  String.mk (((s.data.dropWhile Char.isWhitespace).reverse.dropWhile Char.isWhitespace).reverse)

/-- `s.lower()` (ASCII case folding suffices for the code's `"n/a"` test). -/
def pyLower (s : String) : String :=
  String.mk (s.data.map Char.toLower)

/-- `split_date_and_place`.  A non-string (missing/numeric) input or the
case-insensitive token `"n/a"` yields `(None, None)` at the early return.
Otherwise the regex is tried; on success the `if match:` block assigns
`date`/`place` through a truthiness chain (group 1 is never empty, group 2
may be the empty string, which is falsy and yields `place = None`).  On
failure nothing assigns `date`/`place`, and the trailing
`return date, place` raises `UnboundLocalError`. -/
def split_date_and_place (c : Cell) : Except PyErr (Cell × Cell) :=
  match c with
  | some (Val.str s) =>
    if pyLower (pyStrip s) = "n/a" then Except.ok (none, none)
    else
      match matchDatePlace s with
      | some (d, p) =>
        if d ≠ "" ∧ p ≠ "" then Except.ok (some (Val.str d), some (Val.str p))
        else if d ≠ "" then Except.ok (some (Val.str d), none)
        else if p ≠ "" then Except.ok (none, some (Val.str p))
        else Except.ok (none, none)
      | none => Except.error PyErr.unboundLocal
  | _ => Except.ok (none, none)

/-- `int(token)` for the token `parse_money` extracts: an optional sign
followed by a nonempty digit string parses; anything else raises
`ValueError`. -/
def pyInt (t : List Char) : Except PyErr ℚ :=
  match t with
  | '-' :: ds =>
    if ds ≠ [] ∧ ds.all Char.isDigit then Except.ok (-(digitsVal ds : ℚ))
    else Except.error PyErr.valueError
  | '+' :: ds =>
    if ds ≠ [] ∧ ds.all Char.isDigit then Except.ok (digitsVal ds)
    else Except.error PyErr.valueError
  | ds =>
    if ds ≠ [] ∧ ds.all Char.isDigit then Except.ok (digitsVal ds)
    else Except.error PyErr.valueError

/-- `parse_money`: a string beginning with `'$'` has the `'$'` and the commas
removed, is split on whitespace (`.split()`, which drops empty fields, so an
empty result raises `IndexError` at `[0]`, modelled as `valueError` too) and
the first token is passed to `int()`; every other input returns `np.nan`. -/
def parse_money (c : Cell) : Except PyErr Cell :=
  match c with
  | some (Val.str s) =>
    if s.data.take 1 = ['$'] then
      let cleaned := (s.data.filter (fun ch => ch ≠ '$' ∧ ch ≠ ','))
      let tokens := (cleaned.splitOn ' ').filter (fun t => t ≠ [])
      match tokens with
      | [] => Except.error PyErr.valueError
      | t :: _ => (pyInt t).map (fun q => some (Val.num q))
    else Except.ok none
  | _ => Except.ok none

/-! ## In-place wrappers (frame effects)

`replace_flags_with_nan` and `clean_numeric_columns` mutate the DataFrame
they receive (`inplace=True` replace, `df[col] = ...` column assignment) and
return that same object.  The heap is a list of frames and a Python
DataFrame reference is an index into it. -/

/-- The Python heap: frame references are list indices. -/
abbrev Heap := List DF

/-- `replace_flags_with_nan(df, flags)`: replaces each flag with `None` via
`df.replace(flag, None, inplace=True)` — a write through the reference — and
returns the reference it was given. -/
def replace_flags_with_nan (h : Heap) (r : ℕ)
    (flags : List String := ["N/A", ""]) : Heap × ℕ :=
  (h.set r (replaceFlagsPure flags (h.getD r [])), r)

/-- `clean_numeric_columns(df, numeric_columns)`: when the column list is
`None`, the object-dtype columns are selected; each listed column is cleaned
by in-place column assignment; the reference is returned. -/
def clean_numeric_columns (h : Heap) (r : ℕ)
    (numeric_columns : Option (List String) := none) : Heap × ℕ :=
  let df := h.getD r []
  let cols := numeric_columns.getD ((df.filter (fun c => c.dtype = Dtype.object)).map Col.name)
  (h.set r (cleanNumericPure cols df), r)

end Preproc

namespace Preproc

/-! ## CategoricalCodec (`encoding` / `decoding` / `encode_and_impute`) -/

/-- The hard-coded excluded-from-encoding columns of `encoding`. -/
def excludeColumns : List String :=
  ["Year", "Duration", "Rating", "Number of votes", "Critic Reviews",
   "Metascore", "Budget", "Gross Worldwide", "Profit Margin", "Release Date",
   "Popularity", "Popularity Delta"]

/-- `s.split('|')` over the character list. -/
def splitPipeChars : List Char → List (List Char)
  | [] => [[]]
  | c :: cs =>
    let r := splitPipeChars cs
    if c = '|' then [] :: r
    else
      match r with
      | t :: ts => (c :: t) :: ts
      | [] => [[c]]

/-- `str.split('|')`. -/
def pipeSplit (s : String) : List String :=
  (splitPipeChars s.data).map String.mk

/-- `'|'.join(tokens)` over character lists. -/
def joinPipeChars : List (List Char) → List Char
  | [] => []
  | [t] => t
  | t :: ts => t ++ '|' :: joinPipeChars ts

/-- `'|'.join(tokens)`. -/
def joinPipe (l : List String) : String :=
  String.mk (joinPipeChars (l.map String.data))

/-- `column_data.str.contains('|')` for one entry: pandas treats the pattern
as a regular expression, and as a regex `'|'` is the alternation of two
empty patterns, which matches every string.  The test is therefore true for
every (stringified) value. -/
def containsPipeRegex (_s : String) : Bool := true

/-- `column_data.str.contains('|').any()`: true exactly when the column has
at least one entry (after `astype(str)` there are no nulls to skip). -/
def isMultiValue (strs : List String) : Bool := strs.any containsPipeRegex

/-- Distinct elements of a list, in order of first appearance. -/
def firstSeen {α : Type} [DecidableEq α] (xs : List α) : List α :=
  xs.foldl (fun acc s => if s ∈ acc then acc else acc ++ [s]) []

/-- Stable insert: `x` goes in front of the first element `y` with
`gt y x = false`, so elements comparing equal to `x` that were inserted
later stay behind it. -/
def insertStable {α : Type} (gt : α → α → Bool) (x : α) : List α → List α
  | [] => [x]
  | y :: ys => if gt y x then y :: insertStable gt x ys else x :: y :: ys

/-- Stable insertion sort by the strict comparison `gt`. -/
def sortStable {α : Type} (gt : α → α → Bool) : List α → List α
  | [] => []
  | x :: xs => insertStable gt x (sortStable gt xs)

/-- `value_counts().index.tolist()`: distinct values ordered by descending
frequency; pandas breaks ties arbitrarily, modelled here (as the spec fixes
it) by first-appearance order via a stable descending sort. -/
def valueCounts (xs : List String) : List String :=
  sortStable (fun a b => xs.count b < xs.count a) (firstSeen xs)

/-- The retained top values of one column
(`value_counts().head(top_threshold).index.tolist()`, on the exploded token
list for a multi-value column). -/
def colTopValues (top_threshold : ℕ) (c : Col) : List String :=
  let strs := c.cells.map (pyStr c.dtype)
  if isMultiValue strs then
    (valueCounts (strs.flatMap pipeSplit)).take top_threshold
  else
    (valueCounts strs).take top_threshold

/-- Whether `encoding` classifies the column as multi-valued. -/
def colIsMulti (c : Col) : Bool := isMultiValue (c.cells.map (pyStr c.dtype))

/-- One indicator entry: membership in the split token list for a
multi-value column, string equality otherwise. -/
def indicator (isMulti : Bool) (v : String) (s : String) : ℚ :=
  if (if isMulti then v ∈ pipeSplit s else s = v) then 1 else 0

/-- The indicator column `"<col>_<val>"`. -/
def indicatorCol (c : Col) (isMulti : Bool) (v : String) : Col :=
  { name := c.name ++ "_" ++ v,
    dtype := Dtype.numeric,
    cells := c.cells.map (fun cell => some (Val.num (indicator isMulti v (pyStr c.dtype cell)))) }

/-- The `encoded_columns_info` dictionary built by `encoding` (and
`encode_and_impute`): per-column retained top values in order, and the list
of columns classified as multi-valued. -/
structure EncodingInfo where
  top_values : List (String × List String)
  multi_value_columns : List String
deriving DecidableEq, Repr

/-- The non-excluded columns of the frame, in frame order. -/
def choosedColumns (df : DF) : List Col :=
  df.filter (fun c => c.name ∉ excludeColumns)

/-- `encoding(df, top_threshold)`.  Output frame =
`pd.concat([exclude_columns_df, data, one_hot_encoded], axis=1)`:
the excluded columns selected in `exclude_columns` order (a missing excluded
label would raise `KeyError` in Python; the embedding selects those
present), then `data` after the non-excluded columns were dropped — i.e. the
excluded columns again, in frame order, so excluded labels appear twice —
then every indicator column, blocks in column order, values in retained
order. -/
def encoding (df : DF) (top_threshold : ℕ) : DF × EncodingInfo :=
  let exclude_columns_df := excludeColumns.filterMap (findCol df)
  let choosed := choosedColumns df
  let oneHots := choosed.flatMap (fun c =>
    (colTopValues top_threshold c).map (indicatorCol c (colIsMulti c)))
  let dataDropped := df.filter (fun c => c.name ∈ excludeColumns)
  (exclude_columns_df ++ dataDropped ++ oneHots,
   { top_values := choosed.map (fun c => (c.name, colTopValues top_threshold c)),
     multi_value_columns := (choosed.filter (fun c => colIsMulti c)).map Col.name })

/-- `encode_and_impute(data, columns_to_encode, top_threshold)`: the same
encode implemented a second time over an explicit inclusion list; the listed
columns are dropped and the indicator columns appended. -/
def encode_and_impute (data : DF) (columns_to_encode : List String)
    (top_threshold : ℕ := 200) : DF × EncodingInfo :=
  let cols := columns_to_encode.filterMap (findCol data)
  let oneHots := cols.flatMap (fun c =>
    (colTopValues top_threshold c).map (indicatorCol c (colIsMulti c)))
  (data.filter (fun c => c.name ∉ columns_to_encode) ++ oneHots,
   { top_values := cols.map (fun c => (c.name, colTopValues top_threshold c)),
     multi_value_columns := (cols.filter (fun c => colIsMulti c)).map Col.name })

/-- `name.startswith(pre)`. -/
def strStartsWith (s pre : String) : Bool :=
  s.data.take pre.data.length = pre.data

/-- Python truthiness of a cell (`if is_present:`): zero and the empty
string are falsy; note `float('nan')` is truthy. -/
def truthy (c : Cell) : Bool :=
  match c with
  | some (Val.num q) => q ≠ 0
  | some (Val.str s) => s ≠ ""
  | some (Val.guide g) => g ≠ []
  | none => true

/-- The decoded cell of one row: the retained values whose indicator entry
is truthy, in stored order; joined with `'|'` for a multi-value column, the
first one (or `''`) for a single-value column.  Either way a `''` result is
a string, never a missing value. -/
def decodeRowCell (isMulti : Bool) (values : List String) (row : List Cell) : Cell :=
  let present := ((values.zip row).filter (fun p => truthy p.2)).map Prod.fst
  if isMulti then some (Val.str (joinPipe present))
  else some (Val.str (present.headD ""))

/-- One iteration of the decoding loop, for one `(column, top values)` pair:
the relevant labels are computed from **`data.columns`** — the frame
`decoding` was given, not the working copy `acc` — so a label already
dropped while processing an earlier column raises `KeyError` when selected;
the decoded column is assigned (appended) and the relevant labels dropped
from the working copy. -/
def decodeStep (data : DF) (info : EncodingInfo) (acc : DF)
    (p : String × List String) : Except PyErr DF :=
  let col := p.1
  let values := p.2
  let relevantNames := ((data.filter (fun k => strStartsWith k.name (col ++ "_"))).map Col.name)
  if relevantNames = [] then pure acc
  else do
    let selected ← relevantNames.mapM (fun nm =>
      match findCol acc nm with
      | some c => Except.ok c
      | none => Except.error PyErr.keyError)
    let isMulti := col ∈ info.multi_value_columns
    let decodedCells := (List.range (nRows acc)).map (fun i =>
      decodeRowCell isMulti values (selected.map (fun c => c.cells.getD i none)))
    let acc1 := setCol acc { name := col, dtype := Dtype.object, cells := decodedCells }
    pure (dropCols acc1 relevantNames)

/-- `decoding(data, info)`: the loop over `top_values` in insertion order,
starting from (a copy of) the input frame. -/
def decoding (data : DF) (info : EncodingInfo) : Except PyErr DF :=
  info.top_values.foldlM (decodeStep data info) data

/-! The next definitions characterize what the decode loop produces on a
collision-free encode; they are the proof targets of the round-trip
analysis, assembled from the same source-translated pieces
(`colTopValues`, `pipeSplit`, `joinPipe`). -/

/-- The cell the decode loop reconstructs for one original cell: the
retained top values present among the cell's tokens, in retained order,
pipe-joined. -/
def decodedCellFor (t : ℕ) (c : Col) (cell : Cell) : Cell :=
  some (Val.str (joinPipe
    ((colTopValues t c).filter (fun v => v ∈ pipeSplit (pyStr c.dtype cell)))))

/-- The decoded column for one original column. -/
def decodedColFor (t : ℕ) (c : Col) : Col :=
  { name := c.name, dtype := Dtype.object, cells := c.cells.map (decodedCellFor t c) }

/-- The columns of the encoded frame not yet consumed after the columns in
`done` have been decoded. -/
def residualCols (df : DF) (t : ℕ) (done : List Col) : DF :=
  (encoding df t).1.filter
    (fun k => done.all (fun c => !(strStartsWith k.name (c.name ++ "_"))))

/-- The frame a collision-free decode ends at: the encoded frame minus every
indicator column, followed by the decoded original columns in order. -/
def decodedTarget (df : DF) (t : ℕ) : DF :=
  residualCols df t (choosedColumns df) ++ (choosedColumns df).map (decodedColFor t)

end Preproc

namespace Preproc

/-! ## Imputer (`safe_impute_missing_values` / `process_large_bad_data`)

The spec treats the regressor/classifier as "a pluggable capability: a
supervised learner trainable on a feature matrix and a target column, able
to predict that column for unseen rows".  The random forests are therefore a
parameter; `none` from a fit/predict models the learner raising (as the real
one does whenever the feature frame still holds strings or NaNs).  The
categorical side bundles `LabelEncoder.fit_transform`, the classifier and
`inverse_transform`, whose net effect is a predicted label string. -/

/-- The pluggable supervised learner. -/
structure Learner where
  fitPredictNum : DF → List Cell → DF → Option (List ℚ)
  fitPredictCat : DF → List Cell → DF → Option (List String)

/-- Numeric values of a series, skipping everything non-numeric. -/
def numsOf (cells : List Cell) : List ℚ :=
  cells.filterMap (fun c =>
    match c with
    | some (Val.num q) => some q
    | _ => none)

/-- `series.mean()` for a numeric series: `NaN` entries are skipped; an
empty series has mean `NaN`. -/
def seriesMean (cells : List Cell) : Option ℚ :=
  let xs := numsOf cells
  if xs.length = 0 then none else some (xs.sum / (xs.length : ℚ))

/-- `series.std() ** 2` (pandas default `ddof=1`): the sample variance over
the non-null entries, `NaN` when fewer than two remain.  The standard
deviation itself is irrational; every use in the source is inside the
comparison `|v - mean| > 3*std`, embedded as `(v - mean)^2 > 9*var`. -/
def seriesVar (cells : List Cell) : Option ℚ :=
  let xs := numsOf cells
  if xs.length ≤ 1 then none
  else
    let m := xs.sum / (xs.length : ℚ)
    some ((xs.map (fun x => (x - m) ^ 2)).sum / ((xs.length : ℚ) - 1))

/-- Whether a cell holds a string. -/
def isStrCell (c : Cell) : Bool :=
  match c with
  | some (Val.str _) => true
  | _ => false

/-- An ordering on cat values mirroring how `Series.mode()` sorts its
result (ascending; lexicographic for the string values such a column
holds). -/
def valLE (a b : Val) : Bool :=
  match a, b with
  | Val.str x, Val.str y => x ≤ y
  | Val.num x, Val.num y => x ≤ y
  | Val.num _, _ => true
  | _, Val.num _ => false
  | _, _ => true

/-- `series.mode()[0]`: the most frequent non-null value, the smallest of
them on a tie; on an all-null series `mode()` is empty and `[0]` raises
`KeyError`. -/
def seriesMode (cells : List Cell) : Except PyErr Val :=
  let nn := cells.filterMap id
  match (sortStable valLE (firstSeen nn)).filter
      (fun v => ∀ w ∈ firstSeen nn, nn.count w ≤ nn.count v) with
  | [] => Except.error PyErr.keyError
  | v :: _ => Except.ok v

/-- `fillna(v)`: replace the missing entries of a series by `v`. -/
def fillna (cells : List Cell) (v : Val) : List Cell :=
  cells.map (fun c => if c.isNone then some v else c)

/-- `.loc[missing_mask, col] = predicted_values`: the masked positions take
the successive predicted values. -/
def fillMasked : List Cell → List Bool → List Cell → List Cell
  | [], _, _ => []
  | cells, [], _ => cells
  | _ :: cells, true :: mask, v :: vals => v :: fillMasked cells mask vals
  | c :: cells, true :: mask, [] => c :: fillMasked cells mask []
  | c :: cells, false :: mask, vals => c :: fillMasked cells mask vals

/-- The feature frame for a target column: every other column, restricted to
the masked rows. -/
def featureFrame (df : DF) (colName : String) (mask : List Bool) : DF :=
  filterRows (df.filter (fun c => c.name ≠ colName)) mask

/-- The imputation loop state: the working frame and the Python local
`predicted_values`, which survives across columns and iterations and whose
staleness is observable at the categorical assignment that sits outside the
`if complete_mask.sum() > 0:` guard. -/
structure ImpState where
  df : DF
  pv : Option (List Cell)

/-- Numeric fallback (`except` branch): simple mean imputation of the whole
column.  On an all-null column the mean is `NaN` and `fillna(nan)` leaves
the column unchanged. -/
def fallbackNum (st : ImpState) (colName : String) : ImpState :=
  match findCol st.df colName with
  | none => st
  | some c =>
    match seriesMean c.cells with
    | none => st
    | some m => { st with df := setCol st.df { c with cells := fillna c.cells (Val.num m) } }

/-- One numeric column of one pass.  With no missing entry the column is
skipped.  With no observed entry the `if complete_mask.sum() > 0:` guard
skips the whole body — nothing is filled and no exception arises.  A learner
failure falls back to mean imputation; a successful predict binds
`predicted_values` and fills in place (a length mismatch in the `.loc`
assignment is an exception caught by the same fallback). -/
def impNumCol (L : Learner) (st : ImpState) (colName : String) : ImpState :=
  match findCol st.df colName with
  | none => st
  | some c =>
    if c.cells.any Option.isNone then
      let completeMask := c.cells.map Option.isSome
      let missingMask := c.cells.map Option.isNone
      if 0 < completeMask.count true then
        match L.fitPredictNum (featureFrame st.df colName completeMask)
            (maskCells completeMask c.cells)
            (featureFrame st.df colName missingMask) with
        | none => fallbackNum st colName
        | some preds =>
          let pcells := preds.map (fun q => some (Val.num q))
          let st1 := { st with pv := some pcells }
          if preds.length = missingMask.count true then
            { st1 with df := setCol st1.df { c with cells := fillMasked c.cells missingMask pcells } }
          else fallbackNum st1 colName
      else st
    else st

/-- Categorical fallback (`except` branch): mode imputation.  On an all-null
column `mode()[0]` raises `KeyError` inside the handler, which nothing
catches — the error propagates out of `safe_impute_missing_values`. -/
def fallbackCat (st : ImpState) (colName : String) : Except PyErr ImpState :=
  match findCol st.df colName with
  | none => Except.ok st
  | some c => do
    let m ← seriesMode c.cells
    pure { st with df := setCol st.df { c with cells := fillna c.cells m } }

/-- One categorical column of one pass.  The assignment
`impute_data.loc[missing_mask, col] = predicted_values` sits inside the
`try` but OUTSIDE the `if complete_mask.sum() > 0:` guard, so it runs even
when there was nothing to train on: with `predicted_values` never bound that
raises `NameError`, with a stale binding from an earlier column it either
raises `ValueError` (length mismatch) or silently pastes the stale
predictions.  Any exception lands in the mode fallback, which itself raises
`KeyError` on an all-null column. -/
def impCatCol (L : Learner) (st : ImpState) (colName : String) :
    Except PyErr ImpState :=
  match findCol st.df colName with
  | none => Except.ok st
  | some c =>
    if c.cells.any Option.isNone then
      let completeMask := c.cells.map Option.isSome
      let missingMask := c.cells.map Option.isNone
      let assign : ImpState → Bool × ImpState := fun s =>
        match s.pv with
        | none => (false, s)
        | some pcells =>
          if pcells.length = missingMask.count true then
            (true, { s with df := setCol s.df { c with cells := fillMasked c.cells missingMask pcells } })
          else (false, s)
      let (succ, st1) :=
        if 0 < completeMask.count true then
          match L.fitPredictCat (featureFrame st.df colName completeMask)
              (maskCells completeMask c.cells)
              (featureFrame st.df colName missingMask) with
          | none => (false, st)
          | some preds => assign { st with pv := some (preds.map (fun s => some (Val.str s))) }
        else assign st
      if succ then Except.ok st1 else fallbackCat st1 colName
    else Except.ok st

/-- Names of the `select_dtypes(include=['int64','float64'])` columns. -/
def numericColNames (df : DF) : List String :=
  (df.filter (fun c => c.dtype = Dtype.numeric)).map Col.name

/-- Names of the `select_dtypes(include=['object'])` columns. -/
def categoricalColNames (df : DF) : List String :=
  (df.filter (fun c => c.dtype = Dtype.object)).map Col.name

/-- One full pass of the imputation loop: numeric columns first, then
categorical. -/
def imputeOnePass (L : Learner) (numeric cat : List String) (st : ImpState) :
    Except PyErr ImpState :=
  cat.foldlM (impCatCol L) (numeric.foldl (impNumCol L) st)

/-- `safe_impute_missing_values(data, good_data, max_iter=5)`.  The columns
with missing values and the numeric/categorical split are computed once up
front; then `max_iter` identical passes run.  The `good_data` parameter is
bound (and documented as the "Reference DataFrame with complete data") but
never read: no training set ever draws from it. -/
def safe_impute_missing_values (L : Learner) (data : DF) (good_data : DF)
    (max_iter : ℕ := 5) : Except PyErr DF := do
  let impute_data := data
  -- columns_with_missing is computed by the source and never used
  let numeric := numericColNames impute_data
  let cat := categoricalColNames impute_data
  let final ← (List.range max_iter).foldlM
    (fun st _ => imputeOnePass L numeric cat st) (ImpState.mk impute_data none)
  pure final.df

/-- `pd.concat([acc, chunk], ignore_index=True)` for frames with aligned
columns; an empty accumulator (`pd.DataFrame()`) just becomes the chunk, and
columns missing on either side are NaN-padded. -/
def concatRows (acc chunk : DF) : DF :=
  if acc.isEmpty then chunk
  else
    let common := acc.map (fun c =>
      match findCol chunk c.name with
      | some c2 => { c with cells := c.cells ++ c2.cells }
      | none => { c with cells := c.cells ++ List.replicate (nRows chunk) none })
    let extra := (chunk.filter (fun c2 => (findCol acc c2.name).isNone)).map
      (fun c2 => { c2 with cells := List.replicate (nRows acc) none ++ c2.cells })
    common ++ extra

/-- `df.iloc[start:stop]`. -/
def sliceRows (df : DF) (start stop : ℕ) : DF :=
  df.map (fun c => { c with cells := (c.cells.drop start).take (stop - start) })

/-- `range(0, n, step)` for a positive step. -/
def rangeStep (n step : ℕ) : List ℕ :=
  if step = 0 then [] else (List.range ((n + step - 1) / step)).map (· * step)

/-- `process_large_bad_data(bad_data, good_data, chunk_size)`: the bad rows
are re-indexed, imputed in slices of `chunk_size` rows and concatenated; the
`good_data` argument is merely forwarded to the imputer (which ignores
it). -/
def process_large_bad_data (L : Learner) (bad_data good_data : DF)
    (chunk_size : ℕ := 1000) : Except PyErr DF := do
  let bd := bad_data  -- reset_index(drop=True): row labels are positional here
  let n := nRows bd
  (rangeStep n chunk_size).foldlM
    (fun acc start => do
      let current_chunk := sliceRows bd start (min (start + chunk_size) n)
      let imputed ← safe_impute_missing_values L current_chunk good_data
      pure (concatRows acc imputed))
    ([] : DF)

end Preproc

namespace Preproc

/-! ## ChunkedPipeline (`preprocessing_chunk` and its stages)

`np.log1p` over machine floats is transcendental, so — like the learner — it
enters as an explicit parameter of the pipeline. -/

/-- `split_data_by_null`: complete rows (`df.dropna()`) and rows with at
least one missing value (`df[df.isnull().any(axis=1)]`). -/
def split_data_by_null (df : DF) : DF × DF :=
  let rows := rowsOf df
  (filterRows df (rows.map (fun r => r.all Option.isSome)),
   filterRows df (rows.map (fun r => r.any Option.isNone)))

/-- `df.drop_duplicates()`: keep the first occurrence of each exact row. -/
def dropDuplicates (df : DF) : DF :=
  let rows := rowsOf df
  filterRows df (rows.enum.map (fun p => decide (p.2 ∉ rows.take p.1)))

/-- `df[name]` raising `KeyError` on an absent label. -/
def getColE (df : DF) (name : String) : Except PyErr Col :=
  match findCol df name with
  | some c => Except.ok c
  | none => Except.error PyErr.keyError

/-- The dictionary value of one guide literal. -/
def glitVal : GLit → Val
  | GLit.gstr s => Val.str s
  | GLit.gnum q => Val.num q

/-- `process_parent_guide` on one cell: `ast.literal_eval` of anything that
is not the dict literal raises (`ValueError`/`TypeError`, modelled as
`valueError`); a dict yields the three flattened features per category. -/
def processParentGuideCell (c : Cell) : Except PyErr (List (String × Cell)) :=
  match c with
  | some (Val.guide entries) =>
    Except.ok (entries.flatMap (fun e =>
      [(e.category ++ "_Severity", e.severity.map glitVal),
       (e.category ++ "_Number_of_votes", e.numberOfVotes.map glitVal),
       (e.category ++ "_Total_votes", e.totalVotes.map glitVal)]))
  | _ => Except.error PyErr.valueError

/-- `data['Parental Guide'].apply(process_parent_guide)` materialized as a
frame: feature columns in first-appearance order, rows aligned by feature
name with NaN for a category a row lacks. -/
def guideFeaturesDF (cells : List Cell) : Except PyErr DF := do
  let rows ← cells.mapM processParentGuideCell
  let names := firstSeen (rows.flatMap (fun r => r.map Prod.fst))
  pure (names.map (fun nm =>
    { name := nm, dtype := Dtype.object,
      cells := rows.map (fun r => (r.lookup nm).getD none) }))

/-- `lambda x: np.log1p(x) if x > 0 else np.nan` (the comparison with `NaN`
is false, so a missing input stays missing). -/
def logCell (log1p : ℚ → ℚ) (c : Cell) : Cell :=
  match c with
  | some (Val.num x) => if 0 < x then some (Val.num (log1p x)) else none
  | _ => none

/-- Lines 562–611 of `preprocessing_chunk`: dedup, parental-guide
flattening, flag replacement, dropping the always-null columns, duration /
date-and-place / money parsing, the `log1p` normalization, the derived
Profit Margin, and the numeric-column cleaning — which cleans nothing,
because `numeric_columns` is initialized to `[]` and the
`if numeric_columns is None:` guard that would install the hard-coded
candidate list is false (`[]` is not `None`). -/
def normalizeStage (log1p : ℚ → ℚ) (df : DF) : Except PyErr DF := do
  let data := dropDuplicates df
  let pg ← getColE data "Parental Guide"
  let feats ← guideFeaturesDF pg.cells
  let data := data ++ feats
  let data := dropCols data ["Parental Guide"]
  let data := replaceFlagsPure ["N/A", ""] data
  let _ ← getColE data "Type"
  let _ ← getColE data "Watchlist Count"
  let _ ← getColE data "Runtime"
  let data := dropCols data ["Type", "Watchlist Count", "Runtime"]
  let dur ← getColE data "Duration"
  let data := setCol data
    { name := "Duration", dtype := Dtype.numeric,
      cells := dur.cells.map (fun c => (parse_duration c).map Val.num) }
  let rd ← getColE data "Release Date"
  let pairs ← rd.cells.mapM split_date_and_place
  -- zip(*empty) leaves nothing to unpack into the two columns
  if pairs.isEmpty then Except.error PyErr.valueError else
  let data := setCol data
    { name := "Release Date", dtype := Dtype.object, cells := pairs.map Prod.fst }
  let data := setCol data
    { name := "Place", dtype := Dtype.object, cells := pairs.map Prod.snd }
  let sm ← getColE data "Sound Mix"
  let data := setCol data
    { sm with cells := sm.cells.map (fun c =>
        if c = some (Val.str "N|/|A") then none else c) }
  let b ← getColE data "Budget"
  let bcells ← b.cells.mapM parse_money
  let data := setCol data { name := "Budget", dtype := Dtype.numeric, cells := bcells }
  let g ← getColE data "Gross Worldwide"
  let gcells ← g.cells.mapM parse_money
  let data := setCol data { name := "Gross Worldwide", dtype := Dtype.numeric, cells := gcells }
  let data := setCol data
    { name := "Budget", dtype := Dtype.numeric,
      cells := (colCells data "Budget").map (logCell log1p) }
  let data := setCol data
    { name := "Gross Worldwide", dtype := Dtype.numeric,
      cells := (colCells data "Gross Worldwide").map (logCell log1p) }
  let gw := colCells data "Gross Worldwide"
  let bu := colCells data "Budget"
  let data :=
    if (¬ gw.all Option.isNone) ∨ (¬ bu.all Option.isNone) then
      setCol data
        { name := "Profit Margin", dtype := Dtype.numeric,
          cells := (gw.zip bu).map (fun p =>
            match p.1, p.2 with
            | some (Val.num a), some (Val.num b) => some (Val.num (a - b))
            | _, _ => none) }
    else data
  -- numeric_columns = []; `if numeric_columns is None:` is False, so the
  -- hard-coded candidate list is never installed and nothing is cleaned
  let data := cleanNumericPure [] data
  pure data

/-- The numeric columns subject to outlier detection and scaling. -/
def numericalColumns : List String :=
  ["Rating", "Number of votes", "Critic Reviews", "Metascore", "Budget", "Gross Worldwide"]

/-- `series.mean()` raising `TypeError` when the object series holds
strings (string cells cannot be summed with numbers). -/
def seriesMeanE (cells : List Cell) : Except PyErr (Option ℚ) :=
  if cells.any isStrCell then Except.error PyErr.typeError
  else Except.ok (seriesMean cells)

/-- `series.std()` (as variance), raising like `mean` on strings. -/
def seriesVarE (cells : List Cell) : Except PyErr (Option ℚ) :=
  if cells.any isStrCell then Except.error PyErr.typeError
  else Except.ok (seriesVar cells)

/-- The outlier criterion `abs(v - mean) > 3 * std`, squared to stay in ℚ:
`(v - mean)^2 > 9 * var`.  A `NaN` mean or std compares false. -/
def outlierFlag (v : ℚ) (mean var : Option ℚ) : Bool :=
  match mean, var with
  | some m, some s2 => decide ((v - m) ^ 2 > 9 * s2)
  | _, _ => false

/-- Line 619: `good_data[col][(good_data[col] - good_data[col].mean()).abs()
> 3 * data[col].std()]` — the flagged values of the good partition, with the
mean over `good_data` and the deviation over the whole chunk `data`. -/
def outlierSeries (good data : DF) (col : String) : Except PyErr (List ℚ) := do
  let gcells := colCells good col
  let m ← seriesMeanE gcells
  let s2 ← seriesVarE (colCells data col)
  pure ((numsOf gcells).filter (fun v => outlierFlag v m s2))

/-- One column of `MinMaxScaler.fit_transform`: strings cannot be converted
(`ValueError`); `NaN` entries are ignored for the min/max and map to `NaN`;
a constant column maps to 0 (`_handle_zeros_in_scale`). -/
def scaleColumn (cells : List Cell) : Except PyErr (List Cell) :=
  if cells.any isStrCell then Except.error PyErr.valueError
  else
    let xs := numsOf cells
    match xs.min?, xs.max? with
    | some mn, some mx =>
      Except.ok (cells.map (fun c =>
        match c with
        | some (Val.num x) =>
          some (Val.num (if mx = mn then 0 else (x - mn) / (mx - mn)))
        | _ => none))
    | _, _ => Except.ok (cells.map (fun _ => none))

/-- `good_data.loc[:, numerical_columns] =
scaler.fit_transform(good_data[numerical_columns])`: raises on an empty
frame (0 samples) or an absent label. -/
def minMaxScaleCols (df : DF) (cols : List String) : Except PyErr DF :=
  if nRows df = 0 then Except.error PyErr.valueError
  else
    cols.foldlM
      (fun d col => do
        let c ← getColE d col
        let scaled ← scaleColumn c.cells
        pure (setCol d { c with dtype := Dtype.numeric, cells := scaled }))
      df

/-- `series.isin(values)`: numeric membership; `NaN` and strings are never
members of a numeric value list. -/
def isinMask (cells : List Cell) (vals : List ℚ) : List Bool :=
  cells.map (fun c =>
    match c with
    | some (Val.num q) => q ∈ vals
    | _ => false)

/-- Lines 625–627: per outlier column, the rows of the (already scaled)
good frame whose value is `isin` the flagged (raw) values are appended to
the local `bad_data` and removed from `good_data`. -/
def moveOutlierRows (good bad : DF) (outs : List (String × List ℚ)) : DF × DF :=
  outs.foldl
    (fun gb p =>
      let mask := isinMask (colCells gb.1 p.1) p.2
      (filterRows gb.1 (mask.map (fun x => !x)),
       concatRows gb.2 (filterRows gb.1 mask)))
    (good, bad)

/-- `preprocessing_chunk(df, only_first_genre, top_threshold)`.  Both
`only_first_genre` and `top_threshold` are parameters the body never uses —
in particular no call to `encoding`/`encode_and_impute` occurs anywhere in
the function: the comment "# Encode categorical columns" is followed
directly by the completeness split.  The outlier rows are moved into the
local `bad_data`, but the function returns `imputed_bad_data`, which was
computed from the split before the outlier pass. -/
def preprocessing_chunk (L : Learner) (log1p : ℚ → ℚ) (df : DF)
    (_only_first_genre : Bool := false) (_top_threshold : ℕ := 200) :
    Except PyErr (DF × DF) := do
  let data ← normalizeStage log1p df
  -- "# Encode categorical columns" — no encoding happens
  let (good_data, bad_data) := split_data_by_null data
  let imputed_bad_data ← process_large_bad_data L bad_data good_data 1000
  let outliers ← numericalColumns.mapM (fun col => do
    let vs ← outlierSeries good_data data col
    pure (col, vs))
  let goodScaled ← minMaxScaleCols good_data numericalColumns
  let (goodFinal, _badLocal) := moveOutlierRows goodScaled bad_data outliers
  pure (goodFinal, imputed_bad_data)

end Preproc

namespace Preproc

/-! ## Concrete frames for evaluating the code -/

/-- String cells. -/
def strCells (ss : List String) : List Cell := ss.map (fun s => some (Val.str s))

/-- Numeric cells. -/
def numCells (qs : List ℚ) : List Cell := qs.map (fun q => some (Val.num q))

/-- An input chunk with the full expected column set; the numeric columns
carry the dtypes `pd.read_csv` infers for them ('N/A' is in `read_csv`'s
default NA list, so a Metascore column with 'N/A' entries arrives as float
with `NaN`); titles are pairwise distinct so deduplication keeps every
row. -/
def baseChunk (titles : List String) (ratings metas : List Cell) : DF :=
  let n := titles.length
  [⟨"Title", Dtype.object, strCells titles⟩,
   ⟨"Year", Dtype.numeric, numCells (List.replicate n 2000)⟩,
   ⟨"Rating", Dtype.numeric, ratings⟩,
   ⟨"Number of votes", Dtype.numeric, numCells (List.replicate n 7)⟩,
   ⟨"Critic Reviews", Dtype.numeric, numCells (List.replicate n 7)⟩,
   ⟨"Metascore", Dtype.numeric, metas⟩,
   ⟨"Budget", Dtype.object, strCells (List.replicate n "$3")⟩,
   ⟨"Gross Worldwide", Dtype.object, strCells (List.replicate n "$5")⟩,
   ⟨"Duration", Dtype.object, strCells (List.replicate n "1h")⟩,
   ⟨"Release Date", Dtype.object, strCells (List.replicate n "May 2000 (USA)")⟩,
   ⟨"Sound Mix", Dtype.object, strCells (List.replicate n "Dolby")⟩,
   ⟨"Parental Guide", Dtype.object, List.replicate n (some (Val.guide []))⟩,
   ⟨"Type", Dtype.object, List.replicate n none⟩,
   ⟨"Watchlist Count", Dtype.object, List.replicate n none⟩,
   ⟨"Runtime", Dtype.object, List.replicate n none⟩]

/-- Titles of the 23 incomplete rows. -/
def badTitles : List String :=
  ["b01", "b02", "b03", "b04", "b05", "b06", "b07", "b08", "b09", "b10",
   "b11", "b12", "b13", "b14", "b15", "b16", "b17", "b18", "b19", "b20",
   "b21", "b22", "b23"]

/-- 25 distinct rows: two complete rows with Rating 0 and 10, and 23 rows
with Rating 5 whose Metascore is missing.  Both complete rows are flagged as
Rating outliers (`25 > 9·(50/24)`), and after min–max scaling the Rating-0
row's scaled value 0 collides with the raw flagged value 0, so that row is
dropped from `good` — while the returned bad partition was computed before
the outlier pass. -/
def chunkC2 : DF :=
  baseChunk (["g1", "g2"] ++ badTitles)
    (numCells ([0, 10] ++ List.replicate 23 5))
    (numCells [7, 7] ++ List.replicate 23 none)

/-- Like `chunkC2` but with Ratings 2 and 12 (and 7 for the incomplete
rows): both complete rows are flagged (`25 > 9·(50/24)`), but their scaled
values 0 and 1 match no raw flagged value, so no row is moved at all. -/
def chunkC5 : DF :=
  baseChunk (["g1", "g2"] ++ badTitles)
    (numCells ([2, 12] ++ List.replicate 23 7))
    (numCells [7, 7] ++ List.replicate 23 none)

/-- Two complete rows with categorical string fields. -/
def chunkC6 : DF := baseChunk ["m1", "m2"] (numCells [3, 4]) (numCells [7, 7])

/-- A learner whose fits always raise — which is what the real random
forests do on this pipeline's frames, since the feature matrices still hold
raw strings (and NaNs). -/
def learner0 : Learner := ⟨fun _ _ _ => none, fun _ _ _ => none⟩

/-- A concrete stand-in for `np.log1p` (any monotone choice serves: the
witness chunks only ever scale and subtract constant Budget/Gross
columns). -/
def log1p0 : ℚ → ℚ := fun q => q

/-- A frame whose categorical column is entirely missing. -/
def dfC7 : DF :=
  [⟨"Year", Dtype.numeric, [some (Val.num 1), some (Val.num 2)]⟩,
   ⟨"Place", Dtype.object, [none, none]⟩]

/-- A frame whose numeric column is entirely missing. -/
def dfC7num : DF :=
  [⟨"Year", Dtype.numeric, [some (Val.num 1), some (Val.num 2)]⟩,
   ⟨"Metascore", Dtype.numeric, [none, none]⟩]

/-- The twelve excluded columns, with `n` null rows each. -/
def exCols (n : ℕ) : DF :=
  excludeColumns.map (fun nm => ⟨nm, Dtype.object, List.replicate n none⟩)

/-- A chunk with a pipe-free categorical column. -/
def dfC4 : DF := exCols 2 ++ [⟨"Genre", Dtype.object, strCells ["a", "b"]⟩]

/-- A chunk with prefix-colliding column names `A` and `A_B`. -/
def dfC3 : DF :=
  exCols 1 ++ [⟨"A", Dtype.object, strCells ["x"]⟩,
               ⟨"A_B", Dtype.object, strCells ["y"]⟩]

end Preproc

namespace Preproc

/-! Generic list helpers -/

theorem find?_unique {α : Type} (p : α → Bool) (l : List α) (x : α)
    (hx : x ∈ l) (hpx : p x = true) (huniq : ∀ y ∈ l, p y = true → y = x) :
    l.find? p = some x := by
  induction l with
  | nil => cases hx
  | cons a as ih =>
    cases hb : p a with
    | true =>
      have hax : a = x := huniq a (List.mem_cons_self a as) hb
      subst hax
      simp [List.find?_cons, hb]
    | false =>
      have hxa : x ∈ as := by
        rcases List.mem_cons.mp hx with h | h
        · subst h; rw [hpx] at hb; cases hb
        · exact h
      simp only [List.find?_cons, hb]
      exact ih hxa (fun y hy hpy => huniq y (List.mem_cons_of_mem a hy) hpy)

theorem mapM_ok {α β : Type} {ε : Type} (f : α → Except ε β) (g : α → β) (l : List α)
    (h : ∀ x ∈ l, f x = Except.ok (g x)) : l.mapM f = Except.ok (l.map g) := by
  induction l with
  | nil => rfl
  | cons a as ih =>
    rw [List.mapM_cons, h a (List.mem_cons_self a as), List.map_cons,
      ih (fun x hx => h x (List.mem_cons_of_mem a hx))]
    rfl

theorem range_map_getD {α β : Type} (l : List α) (f : α → β) (d : α) :
    (List.range l.length).map (fun i => f (l.getD i d)) = l.map f := by
  induction l with
  | nil => rfl
  | cons a as ih =>
    rw [List.length_cons, List.range_succ_eq_map]
    simp only [List.map_cons, List.map_map]
    refine congrArg (f a :: ·) ?_
    have hfun : ((fun i => f ((a :: as).getD i d)) ∘ Nat.succ) = fun i => f (as.getD i d) := by
      funext i
      simp [List.getD_cons_succ]
    rw [hfun, ih]

theorem getD_map_of_lt {α β : Type} (l : List α) (f : α → β) (d : α) (i : ℕ)
    (hi : i < l.length) : (l.map f).getD i (f d) = f (l.getD i d) := by
  simp [List.getD_eq_getElem?_getD, List.getElem?_map, List.getElem?_eq_getElem hi]

end Preproc

namespace Preproc

/-! Pipe splitting and joining -/

theorem splitPipeChars_ne_nil (cs : List Char) : splitPipeChars cs ≠ [] := by
  induction cs with
  | nil => simp [splitPipeChars]
  | cons c cs ih =>
    unfold splitPipeChars
    by_cases hc : c = '|'
    · simp [hc]
    · simp only [if_neg hc]
      cases h : splitPipeChars cs with
      | nil => simp
      | cons t ts => simp

theorem no_pipe_of_mem_splitPipeChars (cs : List Char) (l : List Char)
    (hl : l ∈ splitPipeChars cs) : '|' ∉ l := by
  induction cs generalizing l with
  | nil =>
    simp [splitPipeChars] at hl
    simp [hl]
  | cons c cs ih =>
    unfold splitPipeChars at hl
    by_cases hc : c = '|'
    · simp only [if_pos hc] at hl
      rcases List.mem_cons.mp hl with h | h
      · simp [h]
      · exact ih l h
    · simp only [if_neg hc] at hl
      cases h : splitPipeChars cs with
      | nil => exact absurd h (splitPipeChars_ne_nil cs)
      | cons t ts =>
        rw [h] at hl
        rcases List.mem_cons.mp hl with h1 | h1
        · subst h1
          intro hmem
          rcases List.mem_cons.mp hmem with h2 | h2
          · exact hc h2.symm
          · exact ih t (h ▸ List.mem_cons_self t ts) h2
        · exact ih l (h ▸ List.mem_cons_of_mem t h1)

theorem splitPipeChars_no_pipe (l : List Char) (hl : '|' ∉ l) :
    splitPipeChars l = [l] := by
  induction l with
  | nil => rfl
  | cons c cs ih =>
    have hc : c ≠ '|' := fun h => hl (h ▸ List.mem_cons_self c cs)
    have hcs : '|' ∉ cs := fun h => hl (List.mem_cons_of_mem c h)
    unfold splitPipeChars
    simp only [if_neg hc, ih hcs]

theorem splitPipeChars_append_pipe (l r : List Char) (hl : '|' ∉ l) :
    splitPipeChars (l ++ '|' :: r) = l :: splitPipeChars r := by
  induction l with
  | nil => simp [splitPipeChars]
  | cons c cs ih =>
    have hc : c ≠ '|' := fun h => hl (h ▸ List.mem_cons_self c cs)
    have hcs : '|' ∉ cs := fun h => hl (List.mem_cons_of_mem c h)
    simp only [List.cons_append]
    conv_lhs => unfold splitPipeChars
    rw [ih hcs]
    simp only [if_neg hc]

theorem splitPipeChars_joinPipeChars (ts : List (List Char)) (hne : ts ≠ [])
    (hfree : ∀ l ∈ ts, '|' ∉ l) :
    splitPipeChars (joinPipeChars ts) = ts := by
  induction ts with
  | nil => exact absurd rfl hne
  | cons t ts ih =>
    cases ts with
    | nil =>
      simp only [joinPipeChars]
      exact splitPipeChars_no_pipe t (hfree t (List.mem_cons_self t []))
    | cons t' ts' =>
      have : joinPipeChars (t :: t' :: ts') = t ++ '|' :: joinPipeChars (t' :: ts') := rfl
      rw [this, splitPipeChars_append_pipe t _ (hfree t (List.mem_cons_self t _)),
        ih (by simp) (fun l hl => hfree l (List.mem_cons_of_mem t hl))]

theorem string_mk_data (s : String) : String.mk s.data = s := rfl

theorem pipeSplit_joinPipe (ts : List String) (hne : ts ≠ [])
    (hfree : ∀ s ∈ ts, '|' ∉ s.data) :
    pipeSplit (joinPipe ts) = ts := by
  unfold pipeSplit joinPipe
  rw [show (String.mk (joinPipeChars (ts.map String.data))).data
        = joinPipeChars (ts.map String.data) from rfl]
  rw [splitPipeChars_joinPipeChars (ts.map String.data)
    (by simpa using hne)
    (by intro l hl; rcases List.mem_map.mp hl with ⟨s, hs, rfl⟩; exact hfree s hs)]
  rw [List.map_map]
  have hid : (String.mk ∘ String.data) = id := funext string_mk_data
  rw [hid, List.map_id]

end Preproc

namespace Preproc

/-! Stable sorting and first-seen order -/

theorem insertStable_perm {α : Type} (gt : α → α → Bool) (x : α) (l : List α) :
    List.Perm (insertStable gt x l) (x :: l) := by
  induction l with
  | nil => exact List.Perm.refl _
  | cons y ys ih =>
    unfold insertStable
    by_cases h : gt y x = true
    · simp only [if_pos h]
      exact (ih.cons y).trans (List.Perm.swap x y ys)
    · simp only [if_neg h]
      exact List.Perm.refl _

theorem sortStable_perm {α : Type} (gt : α → α → Bool) (l : List α) :
    List.Perm (sortStable gt l) l := by
  induction l with
  | nil => exact List.Perm.refl _
  | cons x xs ih => exact (insertStable_perm gt x (sortStable gt xs)).trans (ih.cons x)

theorem mem_of_mem_sortStable {α : Type} {gt : α → α → Bool} {l : List α} {x : α}
    (h : x ∈ sortStable gt l) : x ∈ l :=
  (sortStable_perm gt l).mem_iff.mp h

theorem sortStable_nodup {α : Type} (gt : α → α → Bool) (l : List α) (h : l.Nodup) :
    (sortStable gt l).Nodup :=
  (sortStable_perm gt l).nodup_iff.mpr h

theorem sortStable_eq_nil {α : Type} (gt : α → α → Bool) (l : List α)
    (h : sortStable gt l = []) : l = [] := by
  have := (sortStable_perm gt l).length_eq
  rw [h] at this
  exact List.length_eq_zero.mp this.symm

theorem firstSeen_go_nodup {α : Type} [DecidableEq α] (xs : List α) (acc : List α)
    (hacc : acc.Nodup) :
    (xs.foldl (fun acc s => if s ∈ acc then acc else acc ++ [s]) acc).Nodup := by
  induction xs generalizing acc with
  | nil => exact hacc
  | cons x xs ih =>
    simp only [List.foldl_cons]
    by_cases hx : x ∈ acc
    · rw [if_pos hx]; exact ih acc hacc
    · rw [if_neg hx]
      refine ih (acc ++ [x]) ?_
      simp [List.nodup_append, hacc, hx]

theorem firstSeen_nodup {α : Type} [DecidableEq α] (xs : List α) : (firstSeen xs).Nodup :=
  firstSeen_go_nodup xs [] List.nodup_nil

theorem firstSeen_go_subset {α : Type} [DecidableEq α] (xs : List α) (acc : List α)
    (x : α) (hx : x ∈ xs.foldl (fun acc s => if s ∈ acc then acc else acc ++ [s]) acc) :
    x ∈ acc ∨ x ∈ xs := by
  induction xs generalizing acc with
  | nil => exact Or.inl hx
  | cons y ys ih =>
    simp only [List.foldl_cons] at hx
    by_cases hy : y ∈ acc
    · rw [if_pos hy] at hx
      rcases ih acc hx with h | h
      · exact Or.inl h
      · exact Or.inr (List.mem_cons_of_mem y h)
    · rw [if_neg hy] at hx
      rcases ih (acc ++ [y]) hx with h | h
      · rcases List.mem_append.mp h with h1 | h1
        · exact Or.inl h1
        · simp at h1
          exact Or.inr (h1 ▸ List.mem_cons_self y ys)
      · exact Or.inr (List.mem_cons_of_mem y h)

theorem mem_of_mem_firstSeen {α : Type} [DecidableEq α] {xs : List α} {x : α}
    (hx : x ∈ firstSeen xs) : x ∈ xs := by
  rcases firstSeen_go_subset xs [] x hx with h | h
  · cases h
  · exact h

theorem firstSeen_go_ne_nil {α : Type} [DecidableEq α] (xs : List α) (acc : List α)
    (h : acc ≠ [] ∨ xs ≠ []) :
    xs.foldl (fun acc s => if s ∈ acc then acc else acc ++ [s]) acc ≠ [] := by
  induction xs generalizing acc with
  | nil =>
    rcases h with h | h
    · exact h
    · exact absurd rfl h
  | cons y ys ih =>
    simp only [List.foldl_cons]
    by_cases hy : y ∈ acc
    · rw [if_pos hy]
      refine ih acc (Or.inl ?_)
      intro hnil
      rw [hnil] at hy
      cases hy
    · rw [if_neg hy]
      exact ih (acc ++ [y]) (Or.inl (by simp))

theorem firstSeen_ne_nil {α : Type} [DecidableEq α] (xs : List α) (h : xs ≠ []) :
    firstSeen xs ≠ [] :=
  firstSeen_go_ne_nil xs [] (Or.inr h)

theorem mem_of_mem_valueCounts {xs : List String} {v : String}
    (hv : v ∈ valueCounts xs) : v ∈ xs :=
  mem_of_mem_firstSeen (mem_of_mem_sortStable hv)

theorem valueCounts_nodup (xs : List String) : (valueCounts xs).Nodup :=
  sortStable_nodup _ _ (firstSeen_nodup xs)

theorem valueCounts_ne_nil (xs : List String) (h : xs ≠ []) : valueCounts xs ≠ [] :=
  fun hnil => firstSeen_ne_nil xs h (sortStable_eq_nil _ _ hnil)

end Preproc

namespace Preproc

/-! Top values and string prefixes -/

theorem isMultiValue_of_ne_nil (strs : List String) (h : strs ≠ []) :
    isMultiValue strs = true := by
  rcases strs with _ | ⟨s, ss⟩
  · exact absurd rfl h
  · simp [isMultiValue, containsPipeRegex]

theorem colIsMulti_of_ne_nil (c : Col) (h : c.cells ≠ []) : colIsMulti c = true := by
  unfold colIsMulti
  exact isMultiValue_of_ne_nil _ (by simpa using h)

theorem colTopValues_eq_multi (t : ℕ) (c : Col) (h : c.cells ≠ []) :
    colTopValues t c =
      (valueCounts ((c.cells.map (pyStr c.dtype)).flatMap pipeSplit)).take t := by
  unfold colTopValues
  rw [if_pos (isMultiValue_of_ne_nil _ (by simpa using h))]

theorem pipeSplit_ne_nil (s : String) : pipeSplit s ≠ [] := by
  unfold pipeSplit
  simpa using splitPipeChars_ne_nil s.data

theorem flatMap_pipeSplit_ne_nil (strs : List String) (h : strs ≠ []) :
    strs.flatMap pipeSplit ≠ [] := by
  rcases strs with _ | ⟨s, ss⟩
  · exact absurd rfl h
  · simp only [List.flatMap_cons]
    intro hnil
    exact pipeSplit_ne_nil s (List.append_eq_nil.mp hnil).1

theorem take_ne_nil {α : Type} (l : List α) (t : ℕ) (hl : l ≠ []) (ht : 0 < t) :
    l.take t ≠ [] := by
  rcases l with _ | ⟨a, as⟩
  · exact absurd rfl hl
  · rcases t with _ | t
    · exact absurd ht (by simp)
    · simp

theorem colTopValues_ne_nil (t : ℕ) (c : Col) (h : c.cells ≠ []) (ht : 0 < t) :
    colTopValues t c ≠ [] := by
  rw [colTopValues_eq_multi t c h]
  refine take_ne_nil _ t (valueCounts_ne_nil _ ?_) ht
  exact flatMap_pipeSplit_ne_nil _ (by simpa using h)

theorem colTopValues_nodup (t : ℕ) (c : Col) (h : c.cells ≠ []) :
    (colTopValues t c).Nodup := by
  rw [colTopValues_eq_multi t c h]
  exact (valueCounts_nodup _).sublist (List.take_sublist t _)

theorem no_pipe_of_mem_pipeSplit {s : String} {v : String} (hv : v ∈ pipeSplit s) :
    '|' ∉ v.data := by
  unfold pipeSplit at hv
  rcases List.mem_map.mp hv with ⟨l, hl, rfl⟩
  exact no_pipe_of_mem_splitPipeChars s.data l hl

theorem no_pipe_of_mem_colTopValues {t : ℕ} {c : Col} {v : String}
    (h : c.cells ≠ []) (hv : v ∈ colTopValues t c) : '|' ∉ v.data := by
  rw [colTopValues_eq_multi t c h] at hv
  have hv1 := mem_of_mem_valueCounts (List.mem_of_mem_take hv)
  rcases List.mem_flatMap.mp hv1 with ⟨s, _, hs2⟩
  exact no_pipe_of_mem_pipeSplit hs2

theorem string_data_inj {a b : String} (h : a.data = b.data) : a = b := by
  cases a; cases b
  exact congrArg String.mk h

theorem strStartsWith_iff (s p : String) :
    strStartsWith s p = true ↔ p.data <+: s.data := by
  unfold strStartsWith
  rw [List.prefix_iff_eq_take]
  constructor
  · intro h; exact (by simpa using h : _ = _).symm
  · intro h; simpa using h.symm

theorem strStartsWith_append (a b : String) : strStartsWith (a ++ b) a = true := by
  rw [strStartsWith_iff]
  rw [String.data_append]
  exact ⟨b.data, rfl⟩

theorem not_strStartsWith_self_underscore (a : String) :
    strStartsWith a (a ++ "_") = false := by
  rw [Bool.eq_false_iff]
  intro h
  have := ((strStartsWith_iff _ _).mp h).length_le
  rw [String.data_append] at this
  simp at this

end Preproc

namespace Preproc

/-! Prefix collisions -/

theorem prefix_of_prefix_append {α : Type} (l m r : List α) (h : l <+: m ++ r)
    (hl : l.length ≤ m.length) : l <+: m := by
  rw [List.prefix_iff_eq_take] at h ⊢
  rw [List.take_append_eq_append_take, Nat.sub_eq_zero_of_le hl, List.take_zero,
    List.append_nil] at h
  exact h

theorem append_cancel_data {a b : String} (s : String) (h : a ++ s = b ++ s) : a = b := by
  apply string_data_inj
  have := congrArg String.data h
  rw [String.data_append, String.data_append] at this
  exact List.append_cancel_right this

theorem prefix_clash (a b nm : String)
    (ha : strStartsWith nm (a ++ "_") = true)
    (hb : strStartsWith nm (b ++ "_") = true)
    (hab : a ≠ b) :
    strStartsWith b (a ++ "_") = true ∨ strStartsWith a (b ++ "_") = true := by
  have hpa := (strStartsWith_iff _ _).mp ha
  have hpb := (strStartsWith_iff _ _).mp hb
  rcases Nat.le_total ((a ++ "_").data.length) ((b ++ "_").data.length) with hle | hle
  · left
    have hq : (a ++ "_").data <+: (b ++ "_").data :=
      List.prefix_of_prefix_length_le hpa hpb hle
    rcases Nat.lt_or_ge ((a ++ "_").data.length) ((b ++ "_").data.length) with hlt | hge
    · have hlen : (a ++ "_").data.length ≤ b.data.length := by
        rw [String.data_append] at hlt
        simpa [String.data_append] using Nat.lt_succ_iff.mp (by simpa using hlt)
      have : (a ++ "_").data <+: b.data := by
        refine prefix_of_prefix_append _ _ ("_".data) ?_ hlen
        rw [← String.data_append]
        exact hq
      exact (strStartsWith_iff _ _).mpr this
    · have heq : (a ++ "_").data = (b ++ "_").data :=
        List.IsPrefix.eq_of_length hq (Nat.le_antisymm hle hge)
      exact absurd (append_cancel_data "_" (string_data_inj heq)) hab
  · right
    have hq : (b ++ "_").data <+: (a ++ "_").data :=
      List.prefix_of_prefix_length_le hpb hpa hle
    rcases Nat.lt_or_ge ((b ++ "_").data.length) ((a ++ "_").data.length) with hlt | hge
    · have hlen : (b ++ "_").data.length ≤ a.data.length := by
        rw [String.data_append] at hlt
        simpa [String.data_append] using Nat.lt_succ_iff.mp (by simpa using hlt)
      have : (b ++ "_").data <+: a.data := by
        refine prefix_of_prefix_append _ _ ("_".data) ?_ hlen
        rw [← String.data_append]
        exact hq
      exact (strStartsWith_iff _ _).mpr this
    · have heq : (b ++ "_").data = (a ++ "_").data :=
        List.IsPrefix.eq_of_length hq (Nat.le_antisymm hle hge)
      exact absurd (append_cancel_data "_" (string_data_inj heq)).symm hab

theorem name_append_inj {a v v' : String} (h : a ++ "_" ++ v = a ++ "_" ++ v') : v = v' := by
  apply string_data_inj
  have := congrArg String.data h
  simp only [String.data_append] at this
  rw [List.append_assoc, List.append_assoc] at this
  exact List.append_cancel_left (List.append_cancel_left this)

end Preproc

namespace Preproc

/-! Structure of the encoded frame -/

theorem encoding_fst_eq (df : DF) (t : ℕ) :
    (encoding df t).1 =
      excludeColumns.filterMap (findCol df)
        ++ df.filter (fun c => c.name ∈ excludeColumns)
        ++ (choosedColumns df).flatMap
            (fun c => (colTopValues t c).map (indicatorCol c (colIsMulti c))) := rfl

theorem encoding_top_values_eq (df : DF) (t : ℕ) :
    (encoding df t).2.top_values =
      (choosedColumns df).map (fun c => (c.name, colTopValues t c)) := rfl

theorem choosed_mem_df {df : DF} {c : Col} (h : c ∈ choosedColumns df) : c ∈ df :=
  (List.mem_filter.mp h).1

theorem choosed_not_excluded {df : DF} {c : Col} (h : c ∈ choosedColumns df) :
    c.name ∉ excludeColumns := by
  have := (List.mem_filter.mp h).2
  simpa using this

theorem indicator_mem_encoding {df : DF} {t : ℕ} {c : Col} {v : String}
    (hc : c ∈ choosedColumns df) (hv : v ∈ colTopValues t c) :
    indicatorCol c (colIsMulti c) v ∈ (encoding df t).1 := by
  rw [encoding_fst_eq]
  refine List.mem_append_right _ (List.mem_flatMap.mpr ⟨c, hc, List.mem_map_of_mem _ hv⟩)

theorem mem_encoding_cases {df : DF} {t : ℕ} {k : Col}
    (hk : k ∈ (encoding df t).1) :
    (k ∈ df ∧ k.name ∈ excludeColumns) ∨
    (∃ c ∈ choosedColumns df, ∃ v ∈ colTopValues t c, k = indicatorCol c (colIsMulti c) v) := by
  rw [encoding_fst_eq] at hk
  rcases List.mem_append.mp hk with hk1 | hk2
  · rcases List.mem_append.mp hk1 with hk3 | hk4
    · rcases List.mem_filterMap.mp hk3 with ⟨nm, hnm, hfind⟩
      left
      have hmem := List.mem_of_find?_eq_some hfind
      have hname := List.find?_some hfind
      refine ⟨hmem, ?_⟩
      have : k.name = nm := by simpa using hname
      exact this ▸ hnm
    · left
      have := List.mem_filter.mp hk4
      refine ⟨this.1, by simpa using this.2⟩
  · right
    rcases List.mem_flatMap.mp hk2 with ⟨c, hc, hkmem⟩
    rcases List.mem_map.mp hkmem with ⟨v, hv, hkv⟩
    exact ⟨c, hc, v, hv, hkv.symm⟩

theorem enc_cells_length {df : DF} {t : ℕ} (hwf : WF df) {k : Col}
    (hk : k ∈ (encoding df t).1) : k.cells.length = nRows df := by
  rcases mem_encoding_cases hk with ⟨hmem, _⟩ | ⟨c, hc, v, _, hkv⟩
  · exact hwf k hmem
  · subst hkv
    simpa [indicatorCol] using hwf c (choosed_mem_df hc)

theorem choosed_names_nodup {df : DF} (hnodup : (df.map Col.name).Nodup) :
    ((choosedColumns df).map Col.name).Nodup := by
  refine List.Nodup.sublist (List.Sublist.map Col.name ?_) hnodup
  exact List.filter_sublist df

theorem indicator_name_pref (c : Col) (b : Bool) (v : String) :
    strStartsWith (indicatorCol c b v).name (c.name ++ "_") = true :=
  strStartsWith_append (c.name ++ "_") v

theorem filter_names_nodup {df : DF} {t : ℕ} {c : Col}
    (hc : c ∈ choosedColumns df)
    (hcells : c.cells ≠ [])
    (hind : ((encoding df t).1.filter
        (fun k => strStartsWith k.name (c.name ++ "_"))).map Col.name
      = (colTopValues t c).map (fun v => c.name ++ "_" ++ v)) :
    (((encoding df t).1.filter
        (fun k => strStartsWith k.name (c.name ++ "_"))).map Col.name).Nodup := by
  rw [hind]
  exact (colTopValues_nodup t c hcells).map
    (fun v v' h => name_append_inj h)

theorem enc_named_indicator_unique {df : DF} {t : ℕ} {c : Col} {v : String} {k : Col}
    (hc : c ∈ choosedColumns df) (hv : v ∈ colTopValues t c)
    (hcells : c.cells ≠ [])
    (hind : ((encoding df t).1.filter
        (fun k => strStartsWith k.name (c.name ++ "_"))).map Col.name
      = (colTopValues t c).map (fun v => c.name ++ "_" ++ v))
    (hk : k ∈ (encoding df t).1) (hname : k.name = c.name ++ "_" ++ v) :
    k = indicatorCol c (colIsMulti c) v := by
  have hkf : k ∈ (encoding df t).1.filter
      (fun j => strStartsWith j.name (c.name ++ "_")) := by
    refine List.mem_filter.mpr ⟨hk, ?_⟩
    rw [hname]
    exact strStartsWith_append (c.name ++ "_") v
  have hif : indicatorCol c (colIsMulti c) v ∈ (encoding df t).1.filter
      (fun j => strStartsWith j.name (c.name ++ "_")) :=
    List.mem_filter.mpr ⟨indicator_mem_encoding hc hv, indicator_name_pref c _ v⟩
  have hnd := filter_names_nodup hc hcells hind
  have : k.name = (indicatorCol c (colIsMulti c) v).name := by
    rw [hname]; rfl
  exact List.inj_on_of_nodup_map hnd hkf hif this

end Preproc

namespace Preproc

/-! Helpers for the decode-step analysis -/

theorem mapM_map_except {α β γ ε : Type} (g : α → β) (f : β → Except ε γ) (l : List α) :
    (l.map g).mapM f = l.mapM (fun x => f (g x)) := by
  induction l with
  | nil => rfl
  | cons a as ih => rw [List.map_cons, List.mapM_cons, List.mapM_cons, ih]

theorem find?_append_first {α : Type} (l₁ l₂ : List α) (p : α → Bool) (x : α)
    (h : l₁.find? p = some x) : (l₁ ++ l₂).find? p = some x := by
  induction l₁ with
  | nil => cases h
  | cons a as ih =>
    rw [List.cons_append]
    rw [List.find?_cons] at h ⊢
    cases hb : p a with
    | true => rw [hb] at h; simpa using h
    | false => rw [hb] at h; simp only; exact ih h

theorem find?_append_second {α : Type} (l₁ l₂ : List α) (p : α → Bool)
    (h : l₁.find? p = none) : (l₁ ++ l₂).find? p = l₂.find? p := by
  induction l₁ with
  | nil => rfl
  | cons a as ih =>
    rw [List.find?_cons] at h
    cases hb : p a with
    | true => rw [hb] at h; cases h
    | false =>
      rw [hb] at h
      rw [List.cons_append, List.find?_cons, hb]
      exact ih h

theorem nRows_append_left (l₁ l₂ : DF) (h : l₁ ≠ []) : nRows (l₁ ++ l₂) = nRows l₁ := by
  rcases l₁ with _ | ⟨a, as⟩
  · exact absurd rfl h
  · rfl

theorem setCol_append (df : DF) (col : Col)
    (h : findCol df col.name = none) : setCol df col = df ++ [col] := by
  unfold setCol
  rw [show (df.find? (fun c => c.name = col.name)) = none from h]
  rfl

theorem truthy_indicator (v s : String) :
    (fun w => truthy (some (Val.num (indicator true w s)))) =
      (fun w => decide (w ∈ pipeSplit s)) := by
  funext w
  by_cases h : w ∈ pipeSplit s
  · simp [indicator, truthy, h]
  · simp [indicator, truthy, h]

theorem decodeRowCell_map (values : List String) (h : String → Cell) :
    decodeRowCell true values (values.map h) =
      some (Val.str (joinPipe (values.filter (fun v => truthy (h v))))) := by
  unfold decodeRowCell
  have hzip : values.zip (values.map h) = values.map (fun v => (v, h v)) := by
    have := List.zip_map' id h values
    simpa using this
  rw [hzip, List.filter_map, List.map_map]
  have h1 : ((fun p : String × Cell => truthy p.2) ∘ fun v => (v, h v)) =
      (fun v => truthy (h v)) := rfl
  have h2 : (Prod.fst ∘ fun v : String => (v, h v)) = id := rfl
  rw [h1, h2, List.map_id]
  simp

end Preproc

namespace Preproc

theorem getD_map_lt {α β : Type} (l : List α) (f : α → β) (d : β) (e : α) (i : ℕ)
    (hi : i < l.length) : (l.map f).getD i d = f (l.getD i e) := by
  induction l generalizing i with
  | nil => simp at hi
  | cons a as ih =>
    rcases i with _ | i
    · rfl
    · simp only [List.map_cons, List.getD_cons_succ]
      exact ih i (by simpa using hi)

theorem nRows_eq_of_all_len (l : DF) (n : ℕ) (hne : l ≠ [])
    (hall : ∀ k ∈ l, k.cells.length = n) : nRows l = n := by
  rcases l with _ | ⟨a, as⟩
  · exact absurd rfl hne
  · exact hall a (List.mem_cons_self a as)

theorem name_mem_multi {df : DF} {t : ℕ} {c : Col}
    (hc : c ∈ choosedColumns df) (hmulti : colIsMulti c = true) :
    c.name ∈ (encoding df t).2.multi_value_columns := by
  show c.name ∈ ((choosedColumns df).filter (fun c => colIsMulti c)).map Col.name
  exact List.mem_map_of_mem _ (List.mem_filter.mpr ⟨hc, by simpa using hmulti⟩)

theorem decode_step_ok (df : DF) (t : ℕ)
    (hwf : WF df) (hn : 0 < nRows df) (ht : 0 < t)
    (hnodup : (df.map Col.name).Nodup)
    (hpref : ∀ c ∈ choosedColumns df, ∀ c' ∈ choosedColumns df,
      c.name ≠ c'.name → strStartsWith c'.name (c.name ++ "_") = false)
    (hind : ∀ c ∈ choosedColumns df,
      ((encoding df t).1.filter (fun k => strStartsWith k.name (c.name ++ "_"))).map Col.name
        = (colTopValues t c).map (fun v => c.name ++ "_" ++ v))
    (done : List Col) (c : Col) (rest : List Col)
    (hsplit : choosedColumns df = done ++ c :: rest) :
    decodeStep (encoding df t).1 (encoding df t).2
        (residualCols df t done ++ done.map (decodedColFor t)) (c.name, colTopValues t c)
      = Except.ok (residualCols df t (done ++ [c]) ++ (done ++ [c]).map (decodedColFor t)) := by
  -- membership bookkeeping
  have hc : c ∈ choosedColumns df := by
    rw [hsplit]; exact List.mem_append_right _ (List.mem_cons_self c rest)
  have hdonechs : ∀ c' ∈ done, c' ∈ choosedColumns df := by
    intro c' h; rw [hsplit]; exact List.mem_append_left _ h
  have hcdf : c ∈ df := choosed_mem_df hc
  have hlen : c.cells.length = nRows df := hwf c hcdf
  have hcells : c.cells ≠ [] := by
    intro hnil; rw [hnil] at hlen; simp at hlen; omega
  have hVne : colTopValues t c ≠ [] := colTopValues_ne_nil t c hcells ht
  have hmulti : colIsMulti c = true := colIsMulti_of_ne_nil c hcells
  have hrel := hind c hc
  have hchn : ((choosedColumns df).map Col.name).Nodup := choosed_names_nodup hnodup
  have hdone_ne : ∀ c' ∈ done, c'.name ≠ c.name := by
    intro c' h
    rw [hsplit, List.map_append, List.nodup_append] at hchn
    intro heq
    refine hchn.2.2 (List.mem_map_of_mem Col.name h) ?_
    rw [heq]
    exact List.mem_cons_self c.name (rest.map Col.name)
  -- indicators of c survive the residual filter
  have hindres : ∀ v ∈ colTopValues t c,
      indicatorCol c (colIsMulti c) v ∈ residualCols df t done := by
    intro v hv
    refine List.mem_filter.mpr ⟨indicator_mem_encoding hc hv, ?_⟩
    rw [List.all_eq_true]
    intro c' hc'
    rw [Bool.not_eq_eq_eq_not, Bool.not_true, Bool.eq_false_iff]
    intro hpc'
    have hne := hdone_ne c' hc'
    rcases prefix_clash c.name c'.name _ (indicator_name_pref c _ v) hpc'
        (fun h => hne (h.symm)) with hcl | hcl
    · rw [hpref c hc c' (hdonechs c' hc') (fun h => hne h.symm)] at hcl
      cases hcl
    · rw [hpref c' (hdonechs c' hc') c hc hne] at hcl
      cases hcl
  -- finding each indicator in the accumulator
  have hfind : ∀ v ∈ colTopValues t c,
      findCol (residualCols df t done ++ done.map (decodedColFor t)) (c.name ++ "_" ++ v)
        = some (indicatorCol c (colIsMulti c) v) := by
    intro v hv
    refine find?_append_first _ _ _ _ ?_
    refine find?_unique _ _ _ (hindres v hv) (by simp [indicatorCol]) ?_
    intro y hy hyname
    have hyenc : y ∈ (encoding df t).1 := (List.mem_filter.mp hy).1
    exact enc_named_indicator_unique hc hv hcells hrel hyenc (by simpa using hyname)
  -- the selection succeeds and yields exactly the indicator block
  have hmapM : ((colTopValues t c).map (fun v => c.name ++ "_" ++ v)).mapM
      (fun nm => match findCol (residualCols df t done ++ done.map (decodedColFor t)) nm with
        | some k => Except.ok k
        | none => Except.error PyErr.keyError)
      = Except.ok ((colTopValues t c).map (indicatorCol c (colIsMulti c))) := by
    rw [mapM_map_except]
    refine mapM_ok _ _ _ ?_
    intro v hv
    rw [hfind v hv]
  -- row counts
  have hresne : residualCols df t done ≠ [] := by
    rcases List.exists_mem_of_ne_nil _ hVne with ⟨v, hv⟩
    exact List.ne_nil_of_mem (hindres v hv)
  have hacclen : ∀ k ∈ residualCols df t done ++ done.map (decodedColFor t),
      k.cells.length = nRows df := by
    intro k hk
    rcases List.mem_append.mp hk with hk1 | hk2
    · exact enc_cells_length hwf ((List.mem_filter.mp hk1).1)
    · rcases List.mem_map.mp hk2 with ⟨c2, hc2, rfl⟩
      simpa [decodedColFor] using hwf c2 (choosed_mem_df (hdonechs c2 hc2))
  have hrows : nRows (residualCols df t done ++ done.map (decodedColFor t)) = nRows df := by
    rw [nRows_append_left _ _ hresne]
    exact nRows_eq_of_all_len _ _ hresne
      (fun k hk => hacclen k (List.mem_append_left _ hk))
  -- the decoded cells are the expected per-row reconstructions
  have hdec : decide (c.name ∈ (encoding df t).2.multi_value_columns) = true :=
    decide_eq_true (name_mem_multi hc hmulti)
  have hcellseq : (List.range (nRows (residualCols df t done ++ done.map (decodedColFor t)))).map
      (fun i => decodeRowCell (decide (c.name ∈ (encoding df t).2.multi_value_columns))
        (colTopValues t c)
        (((colTopValues t c).map (indicatorCol c (colIsMulti c))).map
          (fun k => k.cells.getD i none)))
      = c.cells.map (decodedCellFor t c) := by
    rw [hrows, hdec, ← hlen]
    refine Eq.trans (List.map_congr_left ?_) (range_map_getD c.cells (decodedCellFor t c) none)
    intro i hi
    rw [List.mem_range] at hi
    rw [List.map_map]
    have hcomp : ((fun k : Col => k.cells.getD i none) ∘ indicatorCol c (colIsMulti c)) =
        (fun v => some (Val.num (indicator true v (pyStr c.dtype (c.cells.getD i none))))) := by
      funext v
      show (indicatorCol c (colIsMulti c) v).cells.getD i none = _
      rw [hmulti]
      show ((c.cells.map (fun cell =>
        some (Val.num (indicator true v (pyStr c.dtype cell))))).getD i none) = _
      exact getD_map_lt c.cells _ none none i hi
    rw [hcomp, decodeRowCell_map, truthy_indicator "" (pyStr c.dtype (c.cells.getD i none))]
    rfl
  -- no column of the accumulator carries the original column's name,
  -- so the decoded column is appended
  have hnotin : findCol (residualCols df t done ++ done.map (decodedColFor t)) c.name = none := by
    unfold findCol
    rw [List.find?_eq_none]
    intro k hk hkname
    have hkname' : k.name = c.name := of_decide_eq_true hkname
    rcases List.mem_append.mp hk with hk1 | hk2
    · have hkenc : k ∈ (encoding df t).1 := (List.mem_filter.mp hk1).1
      rcases mem_encoding_cases hkenc with ⟨_, hkexcl⟩ | ⟨c2, hc2, v, hv, rfl⟩
      · exact choosed_not_excluded hc (hkname' ▸ hkexcl)
      · have hpk : strStartsWith c.name (c2.name ++ "_") = true := by
          rw [← hkname']
          exact indicator_name_pref c2 _ v
        by_cases hnm : c2.name = c.name
        · rw [hnm] at hpk
          rw [not_strStartsWith_self_underscore c.name] at hpk
          cases hpk
        · rw [hpref c2 hc2 c hc hnm] at hpk
          cases hpk
    · rcases List.mem_map.mp hk2 with ⟨c2, hc2, rfl⟩
      exact hdone_ne c2 hc2 hkname'
  -- membership in the relevant-name list is exactly the prefix test
  have hrelmem : ∀ nm : String, nm ∈ (colTopValues t c).map (fun v => c.name ++ "_" ++ v) →
      strStartsWith nm (c.name ++ "_") = true := by
    intro nm hnm
    rcases List.mem_map.mp hnm with ⟨v, _, rfl⟩
    exact strStartsWith_append _ v
  have hrelmem' : ∀ k ∈ (encoding df t).1, strStartsWith k.name (c.name ++ "_") = true →
      k.name ∈ (colTopValues t c).map (fun v => c.name ++ "_" ++ v) := by
    intro k hk hp
    rw [← hrel]
    exact List.mem_map_of_mem _ (List.mem_filter.mpr ⟨hk, hp⟩)
  -- dropping the relevant labels from the residual advances it by one column
  have hdropres : (residualCols df t done).filter
      (fun k => decide (k.name ∉ (colTopValues t c).map (fun v => c.name ++ "_" ++ v)))
      = residualCols df t (done ++ [c]) := by
    unfold residualCols
    rw [List.filter_filter]
    refine List.filter_congr ?_
    intro k hk
    have hpiece : decide (k.name ∉ (colTopValues t c).map (fun v => c.name ++ "_" ++ v))
        = !(strStartsWith k.name (c.name ++ "_")) := by
      by_cases hp : strStartsWith k.name (c.name ++ "_") = true
      · have hmem := hrelmem' k hk hp
        simp [hmem, hp]
      · have hnmem : k.name ∉ (colTopValues t c).map (fun v => c.name ++ "_" ++ v) :=
          fun hmem => hp (hrelmem _ hmem)
        simp [hnmem, Bool.eq_false_iff.mpr hp]
    rw [List.all_append, hpiece]
    simp [Bool.and_comm]
  -- the already-decoded columns (and the fresh one) survive the drop
  have hdropdone : ∀ c2 ∈ done,
      decide ((decodedColFor t c2).name ∉
        (colTopValues t c).map (fun v => c.name ++ "_" ++ v)) = true := by
    intro c2 hc2
    refine decide_eq_true ?_
    intro hmem
    have hp := hrelmem _ hmem
    have : strStartsWith c2.name (c.name ++ "_") = true := hp
    rw [hpref c hc c2 (hdonechs c2 hc2) (fun h => hdone_ne c2 hc2 h.symm)] at this
    cases this
  have hdropself : decide ((decodedColFor t c).name ∉
      (colTopValues t c).map (fun v => c.name ++ "_" ++ v)) = true := by
    refine decide_eq_true ?_
    intro hmem
    have hp := hrelmem _ hmem
    have : strStartsWith c.name (c.name ++ "_") = true := hp
    rw [not_strStartsWith_self_underscore c.name] at this
    cases this
  -- assemble the step
  have hVmapne : (colTopValues t c).map (fun v => c.name ++ "_" ++ v) ≠ [] := by
    intro hnil
    exact hVne (List.map_eq_nil_iff.mp hnil)
  have hfinal : dropCols (setCol (residualCols df t done ++ done.map (decodedColFor t))
      { name := c.name, dtype := Dtype.object,
        cells := (List.range (nRows (residualCols df t done ++ done.map (decodedColFor t)))).map
          (fun i => decodeRowCell (decide (c.name ∈ (encoding df t).2.multi_value_columns))
            (colTopValues t c)
            (((colTopValues t c).map (indicatorCol c (colIsMulti c))).map
              (fun k => k.cells.getD i none))) })
      ((colTopValues t c).map (fun v => c.name ++ "_" ++ v))
      = residualCols df t (done ++ [c]) ++ (done ++ [c]).map (decodedColFor t) := by
    rw [hcellseq, setCol_append _
      (Col.mk c.name Dtype.object (c.cells.map (decodedCellFor t c))) hnotin]
    have hfold : Col.mk c.name Dtype.object (c.cells.map (decodedCellFor t c))
        = decodedColFor t c := rfl
    rw [hfold]
    unfold dropCols
    rw [List.filter_append, List.filter_append, hdropres]
    rw [List.filter_eq_self.mpr (fun k hk => by
      rcases List.mem_map.mp hk with ⟨c2, hc2, rfl⟩
      exact hdropdone c2 hc2)]
    rw [show (List.filter (fun k => decide (k.name ∉
        (colTopValues t c).map (fun v => c.name ++ "_" ++ v))) [decodedColFor t c])
        = [decodedColFor t c] from by
      rw [List.filter_eq_self]
      intro k hk
      rcases List.mem_singleton.mp hk with rfl
      exact hdropself]
    rw [List.map_append, List.append_assoc]
    rfl
  simp only [decodeStep]
  rw [hrel, if_neg hVmapne, hmapM]
  exact congrArg Except.ok hfinal

end Preproc

namespace Preproc

theorem decode_fold_ok (df : DF) (t : ℕ)
    (hwf : WF df) (hn : 0 < nRows df) (ht : 0 < t)
    (hnodup : (df.map Col.name).Nodup)
    (hpref : ∀ c ∈ choosedColumns df, ∀ c' ∈ choosedColumns df,
      c.name ≠ c'.name → strStartsWith c'.name (c.name ++ "_") = false)
    (hind : ∀ c ∈ choosedColumns df,
      ((encoding df t).1.filter (fun k => strStartsWith k.name (c.name ++ "_"))).map Col.name
        = (colTopValues t c).map (fun v => c.name ++ "_" ++ v))
    (rest done : List Col)
    (hsplit : choosedColumns df = done ++ rest) :
    (rest.map (fun c => (c.name, colTopValues t c))).foldlM
        (decodeStep (encoding df t).1 (encoding df t).2)
        (residualCols df t done ++ done.map (decodedColFor t))
      = Except.ok (decodedTarget df t) := by
  induction rest generalizing done with
  | nil =>
    simp only [List.map_nil, List.foldlM_nil]
    rw [List.append_nil] at hsplit
    rw [← hsplit]
    rfl
  | cons c rest ih =>
    simp only [List.map_cons, List.foldlM_cons]
    rw [decode_step_ok df t hwf hn ht hnodup hpref hind done c rest hsplit]
    have hsplit' : choosedColumns df = (done ++ [c]) ++ rest := by
      rw [hsplit, List.append_assoc]
      rfl
    exact ih (done ++ [c]) hsplit'

theorem findCol_decodedTarget (df : DF) (t : ℕ)
    (hnodup : (df.map Col.name).Nodup)
    (c : Col) (hc : c ∈ choosedColumns df) :
    findCol (decodedTarget df t) c.name = some (decodedColFor t c) := by
  unfold decodedTarget findCol
  rw [find?_append_second]
  · refine find?_unique _ _ _ (List.mem_map_of_mem _ hc) (by simp [decodedColFor]) ?_
    intro y hy hyname
    rcases List.mem_map.mp hy with ⟨c2, hc2, rfl⟩
    have : c2.name = c.name := of_decide_eq_true hyname
    have hnd := choosed_names_nodup hnodup
    have : c2 = c := List.inj_on_of_nodup_map hnd hc2 hc this
    rw [this]
  · rw [List.find?_eq_none]
    intro k hk hkname
    have hkname' : k.name = c.name := of_decide_eq_true hkname
    have hkenc : k ∈ (encoding df t).1 := (List.mem_filter.mp hk).1
    have hkall := (List.mem_filter.mp hk).2
    rcases mem_encoding_cases hkenc with ⟨_, hkexcl⟩ | ⟨c2, hc2, v, hv, rfl⟩
    · exact choosed_not_excluded hc (hkname' ▸ hkexcl)
    · rw [List.all_eq_true] at hkall
      have := hkall c2 hc2
      rw [indicator_name_pref c2 _ v] at this
      cases this

end Preproc

namespace Preproc

theorem decodedCell_eq (t : ℕ) (c : Col) (i : ℕ) (hi : i < c.cells.length) :
    (decodedColFor t c).cells.getD i none =
      some (Val.str (joinPipe ((colTopValues t c).filter
        (fun v => v ∈ pipeSplit (pyStr c.dtype (c.cells.getD i none)))))) := by
  show ((c.cells.map (decodedCellFor t c)).getD i none) = _
  rw [getD_map_lt c.cells _ none none i hi]
  rfl

theorem decoded_token_recovered (t : ℕ) (c : Col) (hcells : c.cells ≠ [])
    (i : ℕ) (v : String) (hv : v ∈ colTopValues t c)
    (hvtok : v ∈ pipeSplit (pyStr c.dtype (c.cells.getD i none))) :
    v ∈ pipeSplit (joinPipe ((colTopValues t c).filter
      (fun w => w ∈ pipeSplit (pyStr c.dtype (c.cells.getD i none))))) := by
  have hmem : v ∈ (colTopValues t c).filter
      (fun w => w ∈ pipeSplit (pyStr c.dtype (c.cells.getD i none))) :=
    List.mem_filter.mpr ⟨hv, decide_eq_true hvtok⟩
  rw [pipeSplit_joinPipe]
  · exact hmem
  · exact List.ne_nil_of_mem hmem
  · intro s hs
    exact no_pipe_of_mem_colTopValues hcells (List.mem_of_mem_filter hs)

theorem decoded_outside_empty (t : ℕ) (c : Col) (i : ℕ) (hi : i < c.cells.length)
    (hout : ∀ v ∈ colTopValues t c, v ∉ pipeSplit (pyStr c.dtype (c.cells.getD i none))) :
    (decodedColFor t c).cells.getD i none = some (Val.str "") := by
  rw [decodedCell_eq t c i hi]
  rw [List.filter_eq_nil_iff.mpr (fun v hv => by simpa using hout v hv)]
  rfl

/-- C3 (amended): provided no column's indicator prefix captures any other
column of the encoded frame (the collision-freedom hypotheses), the chunk is
nonempty and the threshold positive, decoding an encode reaches exactly the
expected frame: each original column is reconstructed, per row, as the
pipe-join of its retained top values present among the row's tokens — so
every retained token is recovered exactly, and a row whose tokens all fall
outside the retained set decodes to the empty string. -/
theorem c3_round_trip_after_collision_free_encode (df : DF) (t : ℕ)
    (hwf : WF df) (hn : 0 < nRows df) (ht : 0 < t)
    (hnodup : (df.map Col.name).Nodup)
    (hpref : ∀ c ∈ choosedColumns df, ∀ c' ∈ choosedColumns df,
      c.name ≠ c'.name → strStartsWith c'.name (c.name ++ "_") = false)
    (hind : ∀ c ∈ choosedColumns df,
      ((encoding df t).1.filter (fun k => strStartsWith k.name (c.name ++ "_"))).map Col.name
        = (colTopValues t c).map (fun v => c.name ++ "_" ++ v)) :
    decoding (encoding df t).1 (encoding df t).2 = Except.ok (decodedTarget df t) ∧
    (∀ c ∈ choosedColumns df,
      findCol (decodedTarget df t) c.name = some (decodedColFor t c)) ∧
    (∀ c ∈ choosedColumns df, ∀ i, i < nRows df →
      (decodedColFor t c).cells.getD i none =
        some (Val.str (joinPipe ((colTopValues t c).filter
          (fun v => v ∈ pipeSplit (pyStr c.dtype (c.cells.getD i none)))))) ∧
      (∀ v ∈ colTopValues t c, v ∈ pipeSplit (pyStr c.dtype (c.cells.getD i none)) →
        v ∈ pipeSplit (joinPipe ((colTopValues t c).filter
          (fun w => w ∈ pipeSplit (pyStr c.dtype (c.cells.getD i none)))))) ∧
      ((∀ v ∈ colTopValues t c, v ∉ pipeSplit (pyStr c.dtype (c.cells.getD i none))) →
        (decodedColFor t c).cells.getD i none = some (Val.str ""))) := by
  refine ⟨?_, ?_, ?_⟩
  · unfold decoding
    rw [encoding_top_values_eq]
    have hinit : residualCols df t [] ++ ([] : List Col).map (decodedColFor t)
        = (encoding df t).1 := by
      unfold residualCols
      simp
    nth_rewrite 2 [← hinit]
    exact decode_fold_ok df t hwf hn ht hnodup hpref hind (choosedColumns df) [] rfl
  · intro c hc
    exact findCol_decodedTarget df t hnodup c hc
  · intro c hc i hi
    have hlen : c.cells.length = nRows df := hwf c (choosed_mem_df hc)
    have hi' : i < c.cells.length := by rw [hlen]; exact hi
    have hcells : c.cells ≠ [] := by
      intro hnil
      rw [hnil] at hlen
      simp at hlen
      omega
    exact ⟨decodedCell_eq t c i hi',
      fun v hv hvtok => decoded_token_recovered t c hcells i v hv hvtok,
      fun hout => decoded_outside_empty t c i hi' hout⟩

end Preproc

namespace Preproc

def dfRT : DF := exCols 2 ++ [⟨"Genre", Dtype.object, strCells ["a|b", "b"]⟩,
                              ⟨"Lang", Dtype.object, strCells ["x", "y"]⟩]

theorem c3_round_trip_witness :
    (0 < nRows dfRT ∧ 0 < 5 ∧ WF dfRT ∧ (dfRT.map Col.name).Nodup) ∧
    decoding (encoding dfRT 5).1 (encoding dfRT 5).2 = Except.ok (decodedTarget dfRT 5) :=
  ⟨⟨by decide, by decide, by decide, by decide⟩,
   (c3_round_trip_after_collision_free_encode dfRT 5 (by decide) (by decide) (by decide)
     (by decide) (by decide) (by decide)).1⟩

end Preproc

namespace Preproc

/-! ## Claim theorems -/

/-- C1: the claim says the auxiliary models are trained over the union of
good and bad rows, so that the values imputed into bad rows depend on the
good rows supplied to the imputer.  In the code `safe_impute_missing_values`
binds its `good_data` parameter and never reads it (training always uses
only the rows of `data` itself), and `process_large_bad_data` merely
forwards it — so the imputation result is independent of the good rows. -/
theorem c1_imputation_is_independent_of_good_data :
    (∀ (L : Learner) (data g g' : DF) (m : ℕ),
      safe_impute_missing_values L data g m = safe_impute_missing_values L data g' m) ∧
    (∀ (L : Learner) (bad g g' : DF) (cs : ℕ),
      process_large_bad_data L bad g cs = process_large_bad_data L bad g' cs) :=
  ⟨fun _ _ _ _ _ => rfl, fun _ _ _ _ _ => rfl⟩

/-- C2: the claim says the two returned row sets always account for every
row left after deduplication.  On `chunkC2` (25 distinct rows) the code
returns 1 good row and 23 bad rows: the Rating-0 outlier row is removed from
`good` by the post-scaling `isin` collision, but the returned bad partition
is `imputed_bad_data`, computed before the outlier pass, so the row is in
neither output and 1 + 23 ≠ 25. -/
theorem c2_good_and_bad_do_not_cover_the_deduplicated_chunk :
    nRows (dropDuplicates chunkC2) = 25 ∧
    (preprocessing_chunk learner0 log1p0 chunkC2).map
      (fun p => (nRows p.1, nRows p.2)) = Except.ok (1, 23) := by
  constructor
  · decide
  · decide

/-- C4: the claim says a column is classified multi-valued iff the delimiter
`'|'` occurs in at least one of its values.  `column_data.str.contains('|')`
treats `'|'` as a regular expression — the alternation of two empty patterns,
which matches every string — so the pipe-free column `Genre` of `dfC4` is
still recorded as multi-valued, by `encoding` and by `encode_and_impute`
alike. -/
theorem c4_every_nonempty_column_is_classified_multi_valued :
    ((colCells dfC4 "Genre").all
      (fun c => (pyStr Dtype.object c).data.all (fun ch => ch ≠ '|'))) = true ∧
    (encoding dfC4 5).2.multi_value_columns = ["Genre"] ∧
    (encode_and_impute dfC4 ["Genre"] 5).2.multi_value_columns = ["Genre"] := by
  refine ⟨by decide, by decide, by decide⟩

/-- C5: the claim says every flagged outlier row is absent from the returned
good output and present in the returned bad output.  On `chunkC5` the value
2 of row `g1` is flagged (the flagged Rating values are exactly `[2, 12]`),
yet `g1` remains in the returned good frame (its scaled value 0 is not
`isin` the raw flagged values, so the move filter matches nothing) and the
returned bad frame — computed before the outlier pass — does not contain
it. -/
theorem c5_flagged_outlier_row_stays_in_good_and_misses_bad :
    (normalizeStage log1p0 chunkC5).map
      (fun d => outlierSeries (split_data_by_null d).1 d "Rating") =
      Except.ok (Except.ok [2, 12]) ∧
    (preprocessing_chunk learner0 log1p0 chunkC5).map
      (fun p => ((colCells p.1 "Title").contains (some (Val.str "g1")),
                 nRows p.1,
                 (colCells p.2 "Title").contains (some (Val.str "g1")))) =
      Except.ok (true, 2, false) := by
  refine ⟨by decide, by decide⟩

/-- C6: the claim says the applicable categorical columns are one-hot
encoded before the completeness split, so the rows reaching the split and
the imputer are in encoded form.  `preprocessing_chunk` never calls
`encoding`/`encode_and_impute` (its `top_threshold` parameter is unused and
the "# Encode categorical columns" comment is followed directly by the
split): the frame at the split still carries the raw categorical columns —
on `chunkC6` the normalized frame's columns are exactly the raw ones and
`Sound Mix` still holds the raw string "Dolby", which survives into the good
output. -/
theorem c6_rows_reach_the_split_unencoded :
    (normalizeStage log1p0 chunkC6).map
      (fun d => (d.map Col.name, colCells d "Sound Mix")) =
      Except.ok
        (["Title", "Year", "Rating", "Number of votes", "Critic Reviews",
          "Metascore", "Budget", "Gross Worldwide", "Duration", "Release Date",
          "Sound Mix", "Place", "Profit Margin"],
         [some (Val.str "Dolby"), some (Val.str "Dolby")]) ∧
    (preprocessing_chunk learner0 log1p0 chunkC6).map
      (fun p => colCells p.1 "Sound Mix") =
      Except.ok [some (Val.str "Dolby"), some (Val.str "Dolby")] := by
  refine ⟨by decide, by decide⟩

/-- C7: the claim says `safe_impute_missing_values` never propagates an
imputation failure and fills failed columns with the mean/mode.  On `dfC7`
(a categorical column with zero observed rows) the assignment below the
`if complete_mask.sum() > 0:` guard raises `NameError`, the mode fallback
evaluates `mode()[0]` on an all-null column, and the resulting `KeyError`
escapes the function.  On `dfC7num` (a numeric column with zero observed
rows) the function returns but the column's missing entries are left
unfilled rather than mean-imputed. -/
theorem c7_safe_impute_propagates_and_skips_fallbacks :
    safe_impute_missing_values learner0 dfC7 [] 5 = Except.error PyErr.keyError ∧
    safe_impute_missing_values learner0 dfC7num [] 5 = Except.ok dfC7num := by
  refine ⟨by decide, by decide⟩

/-- C8: the claim says `split_date_and_place` is total and never throws,
with every non-matching string mapped to (missing, missing).  The `"n/a"`
token and matching inputs behave as claimed, but on a non-matching string
such as "hello" the `if match:` block assigns nothing and the trailing
`return date, place` raises `UnboundLocalError`. -/
theorem c8_split_date_and_place_raises_on_nonmatching_strings :
    split_date_and_place (some (Val.str "hello")) = Except.error PyErr.unboundLocal ∧
    split_date_and_place (some (Val.str "N/A")) = Except.ok (none, none) ∧
    split_date_and_place (some (Val.str "March 3, 2020 (USA)")) =
      Except.ok (some (Val.str "March 3, 2020"), some (Val.str "USA")) ∧
    split_date_and_place none = Except.ok (none, none) := by
  refine ⟨by decide, by decide, by decide, by decide⟩

/-- C9: the claim maps "2h 15m" to 135, "45m" to 45, "3h" to 180 — which the
code does — and the empty string to missing; but the duration regex consists
solely of optional parts, so it matches the empty string with both groups
absent and the code returns 0 minutes, never the missing value. -/
theorem c9_parse_duration_maps_empty_string_to_zero :
    parse_duration (some (Val.str "2h 15m")) = some 135 ∧
    parse_duration (some (Val.str "45m")) = some 45 ∧
    parse_duration (some (Val.str "3h")) = some 180 ∧
    parse_duration (some (Val.str "")) = some 0 := by
  refine ⟨by decide, by decide, by decide, by decide⟩

/-- Folding the flag replacement over an empty frame yields an empty
frame. -/
theorem replaceFlagsPure_nil (flags : List String) : replaceFlagsPure flags [] = [] := by
  unfold replaceFlagsPure
  induction flags with
  | nil => rfl
  | cons f fs ih => simpa using ih

/-- Folding the numeric cleaning over an empty frame yields an empty
frame. -/
theorem cleanNumericPure_nil (cols : List String) : cleanNumericPure cols [] = [] := by
  unfold cleanNumericPure
  induction cols with
  | nil => rfl
  | cons c cs ih => simpa using ih

/-- Writing the transformed frame through the reference updates the heap at
that reference. -/
theorem set_getD_apply (h : Heap) (r : ℕ) (f : DF → DF) (hnil : f [] = []) :
    (h.set r (f (h.getD r []))).getD r [] = f (h.getD r []) := by
  rcases Nat.lt_or_ge r h.length with hlt | hge
  · simp [List.getD_eq_getElem?_getD, List.getElem?_set_self', List.getElem?_eq_getElem hlt]
  · rw [List.set_eq_of_length_le hge]
    simp [List.getD_eq_getElem?_getD, List.getElem?_eq_none_iff.mpr hge, hnil]

/-- Writing through one reference leaves every other reference's frame
untouched. -/
theorem set_getD_other (h : Heap) (r j : ℕ) (x : DF) (hj : j ≠ r) :
    (h.set r x).getD j [] = h.getD j [] := by
  simp [List.getD_eq_getElem?_getD, List.getElem?_set_ne (Ne.symm hj)]

/-- C10: `replace_flags_with_nan` and `clean_numeric_columns` mutate the
frame they are given in place and return that same reference: after a call
the caller's frame (the heap at the argument reference) carries the flag
replacements respectively the numeric conversions, every other frame is
untouched, and the returned reference is the argument reference. -/
theorem c10_replace_flags_and_clean_numeric_mutate_in_place
    (h : Heap) (r : ℕ) (flags cols : List String) :
    (replace_flags_with_nan h r flags).2 = r ∧
    (replace_flags_with_nan h r flags).1.getD r [] = replaceFlagsPure flags (h.getD r []) ∧
    (∀ j, j ≠ r → (replace_flags_with_nan h r flags).1.getD j [] = h.getD j []) ∧
    (clean_numeric_columns h r (some cols)).2 = r ∧
    (clean_numeric_columns h r (some cols)).1.getD r [] = cleanNumericPure cols (h.getD r []) ∧
    (∀ j, j ≠ r → (clean_numeric_columns h r (some cols)).1.getD j [] = h.getD j []) :=
  ⟨rfl,
   set_getD_apply h r (replaceFlagsPure flags) (replaceFlagsPure_nil flags),
   fun j hj => set_getD_other h r j _ hj,
   rfl,
   set_getD_apply h r (cleanNumericPure cols) (cleanNumericPure_nil cols),
   fun j hj => set_getD_other h r j _ hj⟩

/-- A two-frame heap for exercising the in-place wrappers. -/
def heap0 : Heap :=
  [[⟨"A", Dtype.object, [some (Val.str "N/A"), some (Val.str "1,2x")]⟩],
   [⟨"B", Dtype.object, [some (Val.str "keep")]⟩]]

/-- C10 witness: the in-place contract evaluated on a concrete heap,
reference 0, the default flags and the column list `["A"]`; the other
frame (reference 1) is untouched. -/
theorem c10_witness :
    (replace_flags_with_nan heap0 0 ["N/A", ""]).2 = 0 ∧
    (replace_flags_with_nan heap0 0 ["N/A", ""]).1.getD 0 [] =
      replaceFlagsPure ["N/A", ""] (heap0.getD 0 []) ∧
    (replace_flags_with_nan heap0 0 ["N/A", ""]).1.getD 1 [] = heap0.getD 1 [] ∧
    (clean_numeric_columns heap0 0 (some ["A"])).2 = 0 ∧
    (clean_numeric_columns heap0 0 (some ["A"])).1.getD 0 [] =
      cleanNumericPure ["A"] (heap0.getD 0 []) ∧
    (clean_numeric_columns heap0 0 (some ["A"])).1.getD 1 [] = heap0.getD 1 [] :=
  ⟨(c10_replace_flags_and_clean_numeric_mutate_in_place heap0 0 ["N/A", ""] ["A"]).1,
   (c10_replace_flags_and_clean_numeric_mutate_in_place heap0 0 ["N/A", ""] ["A"]).2.1,
   (c10_replace_flags_and_clean_numeric_mutate_in_place heap0 0 ["N/A", ""] ["A"]).2.2.1 1 (by decide),
   (c10_replace_flags_and_clean_numeric_mutate_in_place heap0 0 ["N/A", ""] ["A"]).2.2.2.1,
   (c10_replace_flags_and_clean_numeric_mutate_in_place heap0 0 ["N/A", ""] ["A"]).2.2.2.2.1,
   (c10_replace_flags_and_clean_numeric_mutate_in_place heap0 0 ["N/A", ""] ["A"]).2.2.2.2.2 1 (by decide)⟩

/-- C3 (counterexample): the claim promises that every value in a column's
retained top-K set is recovered by decoding.  On `dfC3` the value "y" is
retained for column `A_B`, but decoding raises `KeyError`: the relevant
labels for each original column are computed from the frame `decoding` was
given, and processing column `A` already dropped `A_B`'s indicator column
`A_B_y` (it also matches the prefix `A_`), so nothing is recovered at all. -/
theorem c3_decoding_fails_on_prefix_colliding_columns :
    "y" ∈ ((encoding dfC3 5).2.top_values.lookup "A_B").getD [] ∧
    decoding (encoding dfC3 5).1 (encoding dfC3 5).2 = Except.error PyErr.keyError := by
  refine ⟨by decide, by decide⟩

end Preproc
